import Mathlib

/-!
Shallow embedding of `src/beautysh.py` (the beautysh shell-script
beautifier) and verification of the frozen claims about it.

Lines and texts are modelled as `List Char`.  Python regular-expression
operations are embedded as bespoke total functions; each definition's doc
comment names the source construct (file `beautysh.py`) it models, and the
embedding follows Python `re` semantics (leftmost match, alternation tried
left to right, greedy/lazy quantifiers) for the concrete patterns that
appear in the source.
-/

namespace Beautysh

/-- Lines of shell text. -/
abbrev Line := List Char

/-- Shorthand turning a string literal into a `Line`. -/
def lit (s : String) : Line := s.toList

/-- Whitespace set of Python `str.strip` and of the regex class `\s`
(ASCII): space, tab, newline, carriage return, vertical tab, form feed. -/
def isSpaceChar (c : Char) : Bool :=
  c = ' ' || c = '\t' || c = '\n' || c = '\r' || c = '\x0b' || c = '\x0c'

/-- Word characters, the regex class `\w` (ASCII): letters, digits, underscore. -/
def isWordChar (c : Char) : Bool :=
  ('a' ≤ c && c ≤ 'z') || ('A' ≤ c && c ≤ 'Z') || ('0' ≤ c && c ≤ '9') || c = '_'

/-- ASCII letters, the regex class `[a-zA-Z]`. -/
def isAsciiLetter (c : Char) : Bool :=
  ('a' ≤ c && c ≤ 'z') || ('A' ≤ c && c ≤ 'Z')

/-- Characters of the (buggy) regex class `[a-zA-z]` used by
`check_variable_order`: the code-point range from `A` to `z`. -/
def isAtoLow (c : Char) : Bool := 'A' ≤ c && c ≤ 'z'

/-- Decimal digits, the regex class `[0-9]`. -/
def isDigitChar (c : Char) : Bool := '0' ≤ c && c ≤ '9'

/-- Python `str.lstrip()`. -/
def lstrip (s : Line) : Line := s.dropWhile isSpaceChar

/-- Python `str.rstrip()`. -/
def rstrip (s : Line) : Line := (s.reverse.dropWhile isSpaceChar).reverse

/-- Python `str.strip()`. -/
def pystrip (s : Line) : Line := lstrip (rstrip s)

/-- Python `str.split(sep)` for a one-character separator: consecutive
separators produce empty items, and the result is never the empty list. -/
def splitOnChar (sep : Char) : Line → List Line
  | [] => [[]]
  | c :: rest =>
    let r := splitOnChar sep rest
    if c = sep then [] :: r
    else
      match r with
      | h :: t => (c :: h) :: t
      | [] => [[c]]

/-- Join lines with a newline separator; inverse of `splitOnChar '\n'`
("\n".join in Python). -/
def joinNl : List Line → Line
  | [] => []
  | [l] => l
  | l :: ls => l ++ '\n' :: joinNl ls

/-- Substring containment: `re.search` of a pattern with no regex
metacharacters, and Python's `in` operator on strings. -/
def containsSub (pat : Line) : Line → Bool
  | [] => pat.isEmpty
  | c :: rest => pat.isPrefixOf (c :: rest) || containsSub pat rest

/-- Fueled scanning loop of Python `str.replace(old, new)`: replace every
non-overlapping occurrence, scanning left to right.  The fuel is an upper
bound on the number of scanning steps; the wrapper supplies the string's
length, which always suffices (each step consumes at least one
character).  Structural recursion on the fuel keeps the definition
kernel-reducible. -/
def pyReplaceF (old new : Line) : Nat → Line → Line
  | 0, s => s
  | _ + 1, [] => []
  | f + 1, c :: rest =>
    if old.isPrefixOf (c :: rest) then
      new ++ pyReplaceF old new f ((c :: rest).drop old.length)
    else
      c :: pyReplaceF old new f rest

/-- Python `str.replace(old, new)`.  (All call sites have `old` nonempty;
for `old = []` we return the string unchanged.) -/
def pyReplace (s old new : Line) : Line :=
  if old = [] then s else pyReplaceF old new s.length s

/-- Fueled loop of `re.sub(r"q.*?q", "", s)` for a one-character quote
`q` (beautysh collapses `'...'`, `"..."` and backtick-pairs this way,
lines 93-97): repeatedly delete from an opening quote through the next
closing quote; an opening quote with no closer is kept. -/
def collapseQuotedF (q : Char) : Nat → Line → Line
  | 0, s => s
  | _ + 1, [] => []
  | f + 1, c :: rest =>
    if c = q then
      match rest.findIdx? (fun d => d = q) with
      | some i => collapseQuotedF q f (rest.drop (i + 1))
      | none => c :: rest
    else c :: collapseQuotedF q f rest

/-- Model of `re.sub(r"q.*?q", "", s)` (lines 93-97). -/
def collapseQuoted (q : Char) (s : Line) : Line := collapseQuotedF q s.length s

/-- Fueled loop of `re.sub(r"\\`.*?\'", "", s)` (line 99, the "weird
case"): delete from a literal backslash-backtick through the next single
quote. -/
def collapseBacktickTickF : Nat → Line → Line
  | 0, s => s
  | _ + 1, [] => []
  | f + 1, c :: rest =>
    if c = '\\' then
      match rest with
      | d :: rest2 =>
        if d = '\x60' then
          match rest2.findIdx? (fun e => e = '\x27') with
          | some i => collapseBacktickTickF f (rest2.drop (i + 1))
          | none => c :: rest
        else c :: collapseBacktickTickF f (d :: rest2)
      | [] => [c]
    else c :: collapseBacktickTickF f rest

/-- Model of `re.sub(r"\\`.*?\'", "", s)` (line 99). -/
def collapseBacktickTick (s : Line) : Line := collapseBacktickTickF s.length s

/-- Model of `re.sub(r"\\.", "", s)` (line 101): delete every backslash
together with the character following it (non-overlapping, left to
right); a trailing lone backslash is kept. -/
def stripEscapedChars : Line → Line
  | [] => []
  | ['\\'] => ['\\']
  | '\\' :: _ :: rest => stripEscapedChars rest
  | c :: rest => c :: stripEscapedChars rest

/-- Scanning part of the comment stripper: look for a whitespace character
directly followed by `#` and delete from that whitespace to the end. -/
def stripCommentAux : Line → Line
  | [] => []
  | c :: rest =>
    if isSpaceChar c then
      match rest with
      | '#' :: _ => []
      | _ => c :: stripCommentAux rest
    else c :: stripCommentAux rest

/-- Model of `re.sub(r"(\A|\s)(#.*)", "", s, 1)` (line 103): remove the
first `#` comment (at start of line, or preceded by one whitespace
character which is removed with it) through the end of the line. -/
def stripComment (s : Line) : Line :=
  match s with
  | '#' :: _ => []
  | _ => stripCommentAux s

/-- Model of `Beautify.get_test_record` (lines 84-104): simplify a source
line for structural analysis by removing escaped quotes, quoted spans,
escaped characters and trailing comments, in exactly the source's order. -/
def get_test_record (source_line : Line) : Line :=
  let t := pyReplace source_line ['\\', '\x27'] []
  let t := pyReplace t ['\\', '\x22'] []
  let t := collapseQuoted '\x27' t
  let t := collapseQuoted '\x22' t
  let t := collapseQuoted '\x60' t
  let t := collapseBacktickTick t
  let t := stripEscapedChars t
  stripComment t

/-- Model of `re.search(r'.*&{1,2}|.*\|{1,2}$', record)` (line 128).
The first alternative has no end anchor, so it matches exactly when the
line contains an ampersand anywhere; the second matches exactly when the
line ends with a pipe character. -/
def continuedIfSearch (record : Line) : Bool :=
  record.any (fun c => c = '&') ||
    (match record.getLast? with
     | some c => c = '|'
     | none => false)

/-- Model of `re.sub(r"(\S);;", r"\1 ;;", s)` (line 138): insert a space
before `;;` wherever it directly follows a non-space character
(non-overlapping matches, left to right). -/
def fixSemiSemi : Line → Line
  | [] => []
  | c :: ';' :: ';' :: rest =>
    if isSpaceChar c then c :: fixSemiSemi (';' :: ';' :: rest)
    else c :: ' ' :: ';' :: ';' :: fixSemiSemi rest
  | c :: rest => c :: fixSemiSemi rest

/-- Model of `re.subn(r'^[^"]*"', "", t)` (line 152): if the line contains
a double quote, delete through the first one and report one substitution. -/
def dropThroughFirstQuote (t : Line) : Line × Bool :=
  match t.findIdx? (fun c => c = '\x22') with
  | some i => (t.drop (i + 1), true)
  | none => (t, false)

/-- Model of `re.subn(r'"[^"]*?\\$', "", t)` (line 177): the pattern
matches exactly when the line ends with a backslash and contains a double
quote; the match runs from the last double quote to the end of the line. -/
def killEndQuote (t : Line) : Line × Bool :=
  if (match t.getLast? with | some c => c = '\\' | none => false) &&
     t.any (fun c => c = '\x22') then
    (match t.reverse.findIdx? (fun c => c = '\x22') with
     | some i => ((t.reverse.drop (i + 1)).reverse, true)
     | none => (t, false))
  else (t, false)

/-- Split a line around the last occurrence of a literal pattern:
`some (before, after)` when the pattern occurs.  This models the greedy
leading `.*` in `re.sub(r".*pat(.*)", ...)` / `re.sub(r"(.*)pat.*", ...)`,
which select the text after / before the last occurrence. -/
def lastMatchSplit (pat : Line) : Line → Option (Line × Line)
  | [] => if pat.isEmpty then some ([], []) else none
  | c :: rest =>
    match lastMatchSplit pat rest with
    | some (b, a) => some (c :: b, a)
    | none =>
      if pat.isPrefixOf (c :: rest) then some ([], (c :: rest).drop pat.length)
      else none

/-- Model of `re.sub(r".*%s(.*)" % q, r"\1", t, 1)` (line 192): keep the
text after the last occurrence of `q` (the line itself if `q` is absent). -/
def afterLastSub (pat t : Line) : Line :=
  match lastMatchSplit pat t with
  | some (_, a) => a
  | none => t

/-- Model of `re.sub(r"(.*)%s.*" % q, r"\1", t, 1)` (line 200): keep the
text before the last occurrence of `q` (the line itself if `q` is absent). -/
def beforeLastSub (pat t : Line) : Line :=
  match lastMatchSplit pat t with
  | some (b, _) => b
  | none => t

/-- Scan for a whitespace character directly followed by a single or
double quote. -/
def quoteScan : Line → Bool
  | c :: d :: rest =>
    (isSpaceChar c && (d = '\x27' || d = '\x22')) || quoteScan (d :: rest)
  | _ => false

/-- Model of `re.search(r'(\A|\s)(\'|")', t)` (line 195): a single or
double quote at the start of the line or directly after whitespace. -/
def quoteAfterWsOrStart (t : Line) : Bool :=
  (match t with
   | c :: _ => c = '\x27' || c = '\x22'
   | [] => false) || quoteScan t

/-- Model of the group extraction `re.sub(r'.*([\'"]).*', r"\1", t, 1)`
(line 198): the greedy leading `.*` selects the last quote character of
the line.  (The call site guarantees a quote is present; if none is, the
regex does not match and `re.sub` returns the line unchanged.) -/
def lastQuoteCharSub (t : Line) : Line :=
  match t.reverse.find? (fun c => c = '\x27' || c = '\x22') with
  | some c => [c]
  | none => t

/-- Model of `re.search(r"#\s*@formatter:(off|on)", stripped)` (lines 204,
208): a `#`, optional whitespace, then the literal marker. -/
def fmtMarker (word : Line) : Line → Bool
  | [] => false
  | c :: rest =>
    (c = '#' && word.isPrefixOf (rest.dropWhile isSpaceChar)) || fmtMarker word rest

/-- Characters allowed in a here-document terminator token by the class
`[_|\w]` in the extraction regex at line 185. -/
def hereTokenChar (c : Char) : Bool := isWordChar c || c = '|'

/-- Parse `\s*[\'|"]?([_|\w]+)[\'|"]?.*` after `<<-?`, mirroring the
backtracking of the regex engine: skip whitespace, optionally consume one
quoting character (`'`, `|` or `"`), then take a nonempty greedy run of
token characters; if consuming the quoting character leaves no token
character, backtrack and try to read the token run at the quote itself. -/
def hereParseCore (r : Line) : Option Line :=
  match r.dropWhile isSpaceChar with
  | [] => none
  | c :: rest =>
    if c = '\x27' || c = '|' || c = '\x22' then
      match rest with
      | d :: _ =>
        if hereTokenChar d then some (rest.takeWhile hereTokenChar)
        else if hereTokenChar c then some ((c :: rest).takeWhile hereTokenChar)
        else none
      | [] =>
        if hereTokenChar c then some [c] else none
    else if hereTokenChar c then some ((c :: rest).takeWhile hereTokenChar)
    else none

/-- Parse the optional `-` of `<<-?` (greedy, with backtracking) and then
the terminator token. -/
def hereParse (r : Line) : Option Line :=
  match r with
  | '-' :: rest =>
    (match hereParseCore rest with
     | some tok => some tok
     | none => hereParseCore r)
  | _ => hereParseCore r

/-- Fueled scan for the here-document opener chosen by the greedy leading
`.*` of the extraction regex (line 185): the last `<<` occurrence from
which a terminator token can be parsed. -/
def hereExtractF : Nat → Line → Option Line
  | 0, _ => none
  | _ + 1, [] => none
  | f + 1, c :: rest =>
    match c :: rest with
    | '<' :: '<' :: r =>
      (match hereExtractF f ('<' :: r) with
       | some tok => some tok
       | none => hereParse r)
    | _ => hereExtractF f rest

/-- Scan for the last parseable `<<` occurrence. -/
def hereExtract (s : Line) : Option Line := hereExtractF s.length s

/-- Model of
`here_string = re.sub(r'.*<<-?\s*[\'|"]?([_|\w]+)[\'|"]?.*', r"\1", stripped, 1)`
(lines 184-186): the terminator token when the regex matches, and the
whole (unchanged) line when it does not. -/
def extractHereString (stripped : Line) : Line :=
  match hereExtract stripped with
  | some tok => tok
  | none => stripped

/-- Try the keyword alternatives of a counting regex, in the source's
order, as a literal prefix of `t`; return the matched length. -/
def matchKwLen : List Line → Line → Option Nat
  | [], _ => none
  | k :: ks, s => if k.isPrefixOf s then some k.length else matchKwLen ks s

/-- Trailing group `(;|\Z|\s)` of the increment-counting regex (line 217):
alternatives tried left to right; `\Z` consumes nothing. -/
def tailInc : Line → Option Nat
  | [] => some 0
  | c :: _ => if c = ';' then some 1 else if isSpaceChar c then some 1 else none

/-- Trailing group `(;|\)|\||\Z|\s)` of the decrement-counting regex
(line 221). -/
def tailOutc : Line → Option Nat
  | [] => some 0
  | c :: _ =>
    if c = ';' || c = ')' || c = '|' then some 1
    else if isSpaceChar c then some 1 else none

/-- Match keyword-plus-trailing-group starting at `t`, returning the
number of characters consumed from `t`. -/
def tryKwTail (kws : List Line) (tailf : Line → Option Nat) (t : Line) : Option Nat :=
  match matchKwLen kws t with
  | some k =>
    match tailf (t.drop k) with
    | some n => some (k + n)
    | none => none
  | none => none

/-- Fueled scanning loop of `re.findall` for the counting regexes
`(\s|\A|;)(kw...)(tail...)` at positions past the start of the string:
the leading group must consume a whitespace or `;` character; matches are
non-overlapping and scanning resumes after each match. -/
def countKwScanF (kws : List Line) (tailf : Line → Option Nat) : Nat → Line → Nat
  | 0, _ => 0
  | _ + 1, [] => 0
  | f + 1, c :: rest =>
    match (if isSpaceChar c || c = ';' then tryKwTail kws tailf rest else none) with
    | some n => 1 + countKwScanF kws tailf f (rest.drop n)
    | none => countKwScanF kws tailf f rest

/-- Scanning loop past the start of the string (fuel instantiated with
the string length, which each step strictly decreases). -/
def countKwScan (kws : List Line) (tailf : Line → Option Nat) (s : Line) : Nat :=
  countKwScanF kws tailf s.length s

/-- Model of `len(re.findall(r"(\s|\A|;)(kw...)(tail...)", t))` (lines 217
and 219-224): at the start of the string the `\A` alternative applies
(tried after `\s`, before `;`). -/
def countKwAll (kws : List Line) (tailf : Line → Option Nat) (s : Line) : Nat :=
  match s with
  | [] => 0
  | c :: rest =>
    match (if isSpaceChar c then tryKwTail kws tailf rest else none) with
    | some n => 1 + countKwScan kws tailf (rest.drop n)
    | none =>
      match tryKwTail kws tailf (c :: rest) with
      | some n => 1 + countKwScan kws tailf ((c :: rest).drop n)
      | none =>
        match (if c = ';' then tryKwTail kws tailf rest else none) with
        | some n => 1 + countKwScan kws tailf (rest.drop n)
        | none => countKwScan kws tailf rest

/-- Count the occurrences of a single character (`len(re.findall)` for a
character alternation such as `(\{|\(|\[)`). -/
def countChar (c : Char) (s : Line) : Nat := s.countP (fun d => d = c)

/-- Occurrences of `{`, `(`, `[` (line 218). -/
def countOpenChars (s : Line) : Nat :=
  countChar '\x7b' s + countChar '(' s + countChar '[' s

/-- Occurrences of `}`, `)`, `]` (line 225). -/
def countCloseChars (s : Line) : Nat :=
  countChar '\x7d' s + countChar ')' s + countChar ']' s

/-- Word-boundary match of keyword `kw` at the head of `s`: the previous
character (tracked by the caller) is not a word character, `kw` is a
literal prefix, and the character after it is absent or not a word
character.  Valid for keywords that start and end with word characters
(`case`, `esac`). -/
def wordBoundHere (kw : Line) (prevW : Bool) (s : Line) : Bool :=
  !prevW && kw.isPrefixOf s &&
    (match s.drop kw.length with
     | [] => true
     | d :: _ => !isWordChar d)

/-- Scanning loop for `re.search(r"\bkw\b", s)`, tracking whether the
previous character is a word character. -/
def searchWordGo (kw : Line) : Line → Bool → Bool
  | [], _ => false
  | c :: rest, prevW =>
    wordBoundHere kw prevW (c :: rest) || searchWordGo kw rest (isWordChar c)

/-- Model of `re.search(r"\bkw\b", s)` (lines 226, 237) for a keyword made
of word characters. -/
def searchWord (kw : Line) (s : Line) : Bool := searchWordGo kw s false

/-- Model of `re.search(r"\A[^(]*\)", t)` (line 243): the line contains a
closing parenthesis with no opening parenthesis before it. -/
def closeParenFirst : Line → Bool
  | [] => false
  | c :: rest => if c = ')' then true else if c = '(' then false else closeParenFirst rest

/-- Tail of the `elif` alternative: `\s+?then` — a nonempty run of
whitespace directly followed by the literal `then` (lazy repetition only
changes which match is taken, not whether one exists). -/
def wsThenLoop : Line → Bool
  | [] => false
  | c :: rest =>
    (lit "then").isPrefixOf (c :: rest) || (isSpaceChar c && wsThenLoop rest)

/-- Middle of the `elif` alternative: search for `;` followed by
whitespace and `then` (`.*?;\s+?then`). -/
def semiWsThen : Line → Bool
  | [] => false
  | c :: rest =>
    (c = ';' && (match rest with
                 | d :: rest2 => isSpaceChar d && wsThenLoop (d :: rest2)
                 | [] => false)) || semiWsThen rest

/-- Model of `re.search(r"^(else|elif\s.*?;\s+?then)", t)` (line 256):
the line starts with `else`, or starts with `elif` plus a whitespace
character and later contains `;`, whitespace, `then`. -/
def elseElifCase (t : Line) : Bool :=
  (lit "else").isPrefixOf t ||
    ((lit "elif").isPrefixOf t &&
      (match t.drop 4 with
       | c :: rest => isSpaceChar c && semiWsThen (c :: rest)
       | [] => false))

/-- Attempt of `FUNCTION_STYLE_REGEX[0]`, `\bfunction\s+(\w*)\s*\(\s*\)\s*`
(line 18), at the current position: returns the captured name and the
total matched length.  `prevW` says whether the preceding character is a
word character (the `\b` before the word-initial `function` requires it
not to be).  All quantifiers are greedy; since word characters, whitespace
and the parentheses are pairwise disjoint the munching is deterministic. -/
def style0MatchAt (prevW : Bool) (s : Line) : Option (Line × Nat) :=
  if prevW then none
  else if (lit "function").isPrefixOf s then
    let r := s.drop 8
    let ws1 := (r.takeWhile isSpaceChar).length
    if ws1 = 0 then none
    else
      let r2 := r.drop ws1
      let name := r2.takeWhile isWordChar
      let r3 := r2.drop name.length
      let ws2 := (r3.takeWhile isSpaceChar).length
      match r3.drop ws2 with
      | '(' :: r5 =>
        let ws3 := (r5.takeWhile isSpaceChar).length
        (match r5.drop ws3 with
         | ')' :: r7 =>
           let ws4 := (r7.takeWhile isSpaceChar).length
           some (name, 8 + ws1 + name.length + ws2 + 1 + ws3 + 1 + ws4)
         | _ => none)
      | _ => none
  else none

/-- Attempt of `FUNCTION_STYLE_REGEX[1]`, `\bfunction\s+(\w*)\s*`
(line 19), at the current position. -/
def style1MatchAt (prevW : Bool) (s : Line) : Option (Line × Nat) :=
  if prevW then none
  else if (lit "function").isPrefixOf s then
    let r := s.drop 8
    let ws1 := (r.takeWhile isSpaceChar).length
    if ws1 = 0 then none
    else
      let r2 := r.drop ws1
      let name := r2.takeWhile isWordChar
      let ws2 := ((r2.drop name.length).takeWhile isSpaceChar).length
      some (name, 8 + ws1 + name.length + ws2)
  else none

/-- Attempt of `FUNCTION_STYLE_REGEX[2]`, `\b\s*(\w*)\s*\(\s*\)\s*`
(line 20), at the current position.  The leading `\b` requires a
word/non-word boundary between the previous character and the current
one (string ends count as non-word). -/
def style2MatchAt (prevW : Bool) (s : Line) : Option (Line × Nat) :=
  let headW := match s with | c :: _ => isWordChar c | [] => false
  if prevW = headW then none
  else
    let ws1 := (s.takeWhile isSpaceChar).length
    let r2 := s.drop ws1
    let name := r2.takeWhile isWordChar
    let r3 := r2.drop name.length
    let ws2 := (r3.takeWhile isSpaceChar).length
    match r3.drop ws2 with
    | '(' :: r5 =>
      let ws3 := (r5.takeWhile isSpaceChar).length
      (match r5.drop ws3 with
       | ')' :: r7 =>
         let ws4 := (r7.takeWhile isSpaceChar).length
         some (name, ws1 + name.length + ws2 + 1 + ws3 + 1 + ws4)
       | _ => none)
    | _ => none

/-- Dispatch on the `FUNCTION_STYLE_REGEX` index. -/
def styleMatchAt : Nat → Bool → Line → Option (Line × Nat)
  | 0, p, s => style0MatchAt p s
  | 1, p, s => style1MatchAt p s
  | _, p, s => style2MatchAt p s

/-- The `FUNCTION_STYLE_REPLACEMENT` templates (line 23) applied to a
captured name. -/
def styleRepl : Nat → Line → Line
  | 0, name => lit "function " ++ name ++ lit "() "
  | 1, name => lit "function " ++ name ++ lit " "
  | _, name => name ++ lit "() "

/-- Scanning loop of `re.search(FUNCTION_STYLE_REGEX[det], s)`. -/
def searchStyleGo (det : Nat) : Line → Bool → Bool
  | [], prevW => (styleMatchAt det prevW []).isSome
  | c :: rest, prevW =>
    (styleMatchAt det prevW (c :: rest)).isSome || searchStyleGo det rest (isWordChar c)

/-- Model of `Beautify.detect_function_style` (lines 59-68): the regexes
are tried in sequence and the first match wins. -/
def detect_function_style (test_record : Line) : Option Nat :=
  if searchStyleGo 0 test_record false then some 0
  else if searchStyleGo 1 test_record false then some 1
  else if searchStyleGo 2 test_record false then some 2
  else none

/-- Scanning loop of `re.sub(FUNCTION_STYLE_REGEX[det],
FUNCTION_STYLE_REPLACEMENT[applyIdx], s)`: replace every non-overlapping
match, left to right; boundary lookbehind uses the original characters.
(A zero-length match is impossible — every pattern consumes at least the
literal `function` or a parenthesis pair — so that case is mapped to a
plain skip.) -/
def subStyleGoF (det applyIdx : Nat) : Nat → Line → Bool → Line
  | 0, s, _ => s
  | _ + 1, [], _ => []
  | f + 1, c :: rest, prevW =>
    match styleMatchAt det prevW (c :: rest) with
    | some (name, len) =>
      (match len with
       | 0 => c :: subStyleGoF det applyIdx f rest (isWordChar c)
       | n + 1 =>
         let lastW := match ((c :: rest).take (n + 1)).getLast? with
           | some d => isWordChar d
           | none => prevW
         styleRepl applyIdx name ++ subStyleGoF det applyIdx f (rest.drop n) lastW)
    | none => c :: subStyleGoF det applyIdx f rest (isWordChar c)

/-- Substitution scan with fuel instantiated to the string length. -/
def subStyleGo (det applyIdx : Nat) (s : Line) (prevW : Bool) : Line :=
  subStyleGoF det applyIdx s.length s prevW

/-- Model of `Beautify.change_function_style` (lines 70-82):
`apply_style` plays the role of `self.apply_function_style`.  When both a
detected style and a target style are present the detected pattern is
substituted by the target replacement and the result is stripped. -/
def change_function_style (apply_style : Option Nat) (stripped_record : Line)
    (func_decl_style : Option Nat) : Line :=
  match func_decl_style with
  | none => stripped_record
  | some det =>
    match apply_style with
    | none => stripped_record
    | some ap => pystrip (subStyleGo det ap stripped_record false)

/-- Keyword alternatives of the increment regex (line 217), in source
order. -/
def kwsInc : List Line := [lit "case", lit "then", lit "do"]

/-- Keyword alternatives of the decrement regex (line 221), in source
order. -/
def kwsOut : List Line := [lit "esac", lit "fi", lit "done", lit "elif"]

/-- Configuration of the core transform: `self.tab_str`, `self.tab_size`
and `self.apply_function_style` (lines 36-40). -/
structure BSConfig where
  tab_str : Char
  tab_size : Nat
  apply_function_style : Option Nat
deriving DecidableEq, Repr

/-- Default configuration from `Beautify.__init__` (lines 34-40). -/
def defaultCfg : BSConfig := { tab_str := ' ', tab_size := 4, apply_function_style := none }

/-- Mutable locals of `beautify_string` carried across lines
(lines 108-122).  `esac_errors` counts the `"esac" before "case"` stderr
reports (line 228); the line counter is omitted (it only feeds those
messages). -/
structure BSState where
  tab : Int
  case_level : Nat
  continue_line : Bool
  started_mqs : Bool
  open_brackets : Int
  in_here_doc : Bool
  defer_ext_quote : Bool
  in_ext_quote : Bool
  ext_quote_string : Line
  here_string : Line
  formatter : Bool
  esac_errors : Nat
deriving DecidableEq, Repr

/-- Initial state of the per-file scan (lines 108-122). -/
def bsInit : BSState :=
  { tab := 0, case_level := 0, continue_line := false, started_mqs := false,
    open_brackets := 0, in_here_doc := false, defer_ext_quote := false,
    in_ext_quote := false, ext_quote_string := [], here_string := [],
    formatter := true, esac_errors := 0 }

/-- End-of-iteration bookkeeping shared by all non-`continue` paths of the
loop body: transfer a deferred external quote (lines 275-277) and count
open brackets (lines 279-281). -/
def bsTail (st : BSState) (in_ext1 defer1 : Bool) (test : Line) : Bool × Bool × Int :=
  let (ine2, def2) := if defer1 then (true, false) else (in_ext1, defer1)
  let ob := st.open_brackets + (countChar '[' test : Int) - (countChar ']' test : Int)
  (ine2, def2, ob)

/-- Model of `re.search(here_string, test_record)` (line 164).  The
terminator is a DYNAMIC regex pattern, not a literal: for a pattern made
of characters of the extraction class `[_|\w]` (line 185) — word
characters, which have no regex meaning, and `|`, which is alternation —
the search succeeds exactly when some `|`-separated piece occurs as a
substring of the line (an empty piece, as in `A|`, matches everywhere).
A pattern outside that class (the whole stripped line, when the
extraction regex fails to match) contains metacharacters whose search can
match differently or raise; such states are outside this model, and the
here-document theorems restrict their terminators to the extraction
class. -/
def hereRegexSearch (pattern : Line) (s : Line) : Bool :=
  (splitOnChar '|' pattern).any (fun alt => containsSub alt s)

/-- Here-document / multiline-quote pass-through branch (lines 157-165):
emit the raw line; close the here-document when the terminator regex
matches the simplified line and no new `<<` is present. -/
def bsHeredocEmit (st : BSState) (record : Line) (cont : Bool) (test1 : Line) :
    Line × BSState :=
  let ihd :=
    if hereRegexSearch st.here_string test1 && !containsSub (lit "<<") test1 then false
    else st.in_here_doc
  (record, { st with continue_line := cont, in_here_doc := ihd })

/-- External-quote tracking (lines 189-200): returns the simplified line
restricted to its unquoted part, the updated `in_ext_quote`, the deferred
flag and the quote delimiter. -/
def bsExtQuote (st : BSState) (test2 : Line) : Line × Bool × Bool × Line :=
  if st.in_ext_quote then
    if containsSub st.ext_quote_string test2 then
      (afterLastSub st.ext_quote_string test2, false, st.defer_ext_quote,
       st.ext_quote_string)
    else (test2, true, st.defer_ext_quote, st.ext_quote_string)
  else
    if quoteAfterWsOrStart test2 then
      let q := lastQuoteCharSub test2
      (beforeLastSub q test2, false, true, q)
    else (test2, false, st.defer_ext_quote, st.ext_quote_string)

/-- State rebuild common to the paths that reach the end-of-iteration
bookkeeping (lines 275-281). -/
def bsTailState (st : BSState) (cont started1 ihd1 : Bool) (here1 : Line)
    (in_ext1 defer1 : Bool) (extq1 test3 : Line) : BSState :=
  let (ine2, def2, ob) := bsTail st in_ext1 defer1 test3
  { st with continue_line := cont, started_mqs := started1, in_here_doc := ihd1,
            here_string := here1, in_ext_quote := ine2, ext_quote_string := extq1,
            defer_ext_quote := def2, open_brackets := ob }

/-- State rebuild for the two `continue` paths that skip the
end-of-iteration bookkeeping (formatter markers, lines 204-211). -/
def bsSkipState (st : BSState) (cont started1 ihd1 : Bool) (here1 : Line)
    (in_ext1 defer1 : Bool) (extq1 : Line) (fmt : Bool) : BSState :=
  { st with continue_line := cont, started_mqs := started1, in_here_doc := ihd1,
            here_string := here1, in_ext_quote := in_ext1, ext_quote_string := extq1,
            defer_ext_quote := defer1, formatter := fmt }

/-- Multiline-quoted-string bookkeeping (lines 167-181): the simplified
line with a string-opening tail removed. -/
def bsTest2 (test1 : Line) (prev cont : Bool) : Line :=
  if cont && !prev then (killEndQuote test1).1 else test1

/-- Multiline-quoted-string bookkeeping (lines 167-181): the new
`started_multiline_quoted_string` flag. -/
def bsStarted1 (test1 : Line) (prev cont : Bool) : Bool :=
  if cont && !prev then (killEndQuote test1).2 else false

/-- Here-document opener detection (lines 183-187): the new
`here_string` and `in_here_doc`. -/
def bsHereDetect (st : BSState) (stripped1 test2 : Line) : Line × Bool :=
  if containsSub (lit "<<") test2 && !containsSub (lit "<<<") test2 then
    (extractHereString stripped1, decide (0 < (extractHereString stripped1).length))
  else (st.here_string, st.in_here_doc)

/-- Counting-and-emission block (lines 217-273): keyword and bracket
deltas, esac/case bookkeeping, function-style rewriting, transient
adjustments and the emitted line.  Returns the emitted line, the updated
running depth, case level and esac-error count. -/
def bsFormat (cfg : BSConfig) (tab : Int) (case_level : Nat) (esac_errors : Nat)
    (open_brackets : Int) (stripped1 test3 : Line) (prev ended_mqs : Bool) :
    Line × Int × Nat × Nat :=
  let inc0 := countKwAll kwsInc tailInc test3 + countOpenChars test3
  let outc0 := countKwAll kwsOut tailOutc test3 + countCloseChars test3
  let esacF := searchWord (lit "esac") test3
  let outc1 := if esacF then (if case_level = 0 then outc0 else outc0 + 1) else outc0
  let cl1 := if esacF then (if case_level = 0 then case_level else case_level - 1)
    else case_level
  let esacErr1 := if esacF then (if case_level = 0 then esac_errors + 1 else esac_errors)
    else esac_errors
  let caseF := searchWord (lit "case") test3
  let inc1 := if caseF then inc0 + 1 else inc0
  let cl2 := if caseF then cl1 + 1 else cl1
  let choiceF := cl2 ≠ 0 && closeParenFirst test3
  let inc2 := if choiceF then inc1 + 1 else inc1
  let choice_case : Int := if choiceF then -1 else 0
  let fds := detect_function_style test3
  let stripped2 :=
    if fds.isSome then change_function_style cfg.apply_function_style stripped1 fds
    else stripped1
  let else_case : Int := if elseElifCase test3 then -1 else 0
  let net : Int := (inc2 : Int) - (outc1 : Int)
  let tab1 := tab + min net 0
  let extab0 := tab1 + else_case + choice_case +
    (if prev && open_brackets = 0 && !ended_mqs then 1 else 0)
  let extab := max 0 extab0
  let out := List.replicate (cfg.tab_size * extab.toNat) cfg.tab_str ++ stripped2
  let tab2 := tab1 + max net 0
  (out, tab2, cl2, esacErr1)

/-- Non-here-document part of the loop body (lines 167-281). -/
def bsNormal (cfg : BSConfig) (st : BSState) (record : Line) (continued_if : Bool)
    (stripped1 test1 : Line) (prev cont ended_mqs : Bool) : Line × BSState :=
  -- lines 167-181: multiline-quoted-string bookkeeping
  let test2 := bsTest2 test1 prev cont
  let started1 := bsStarted1 test1 prev cont
  -- lines 183-187: here-document opener detection
  let here1 := (bsHereDetect st stripped1 test2).1
  let ihd1 := (bsHereDetect st stripped1 test2).2
  -- lines 189-200: external-quote tracking
  let test3 := (bsExtQuote st test2).1
  let in_ext1 := (bsExtQuote st test2).2.1
  let defer1 := (bsExtQuote st test2).2.2.1
  let extq1 := (bsExtQuote st test2).2.2.2
  if in_ext1 || !st.formatter then
    -- lines 201-206: pass through; a formatter-on marker re-enables
    -- formatting and skips the end-of-iteration bookkeeping
    if fmtMarker (lit "@formatter:on") stripped1 then
      (record, bsSkipState st cont started1 ihd1 here1 in_ext1 defer1 extq1 true)
    else
      (record, bsTailState st cont started1 ihd1 here1 in_ext1 defer1 extq1 test3)
  else
    if fmtMarker (lit "@formatter:off") stripped1 then
      -- lines 208-211: formatter-off marker: pass through and suspend
      (record, bsSkipState st cont started1 ihd1 here1 in_ext1 defer1 extq1 false)
    else if st.open_brackets ≠ 0 || continued_if then
      -- lines 213-215: multi-line conditions pass through unchanged
      (record, bsTailState st cont started1 ihd1 here1 in_ext1 defer1 extq1 test3)
    else
      let r := bsFormat cfg st.tab st.case_level st.esac_errors st.open_brackets
        stripped1 test3 prev ended_mqs
      (r.1,
       { bsTailState st cont started1 ihd1 here1 in_ext1 defer1 extq1 test3 with
           tab := r.2.1, case_level := r.2.2.1, esac_errors := r.2.2.2 })

/-- Model of `re.search(r"\\$", stripped_record)` (line 144): the line
ends with a backslash. -/
def endsWithBackslash (s : Line) : Bool :=
  match s.getLast? with
  | some c => c = '\\'
  | none => false

/-- Closing of a multiline quoted string (lines 149-155): the simplified
line after the closing quote. -/
def bsTest1 (st : BSState) (test0 : Line) (prev cont : Bool) : Line :=
  if !cont && prev && st.started_mqs then (dropThroughFirstQuote test0).1 else test0

/-- Closing of a multiline quoted string (lines 149-155): the
`ended_multiline_quoted_string` flag. -/
def bsEnded (st : BSState) (test0 : Line) (prev cont : Bool) : Bool :=
  if !cont && prev && st.started_mqs then (dropThroughFirstQuote test0).2 else false

/-- Nonblank part of the loop body (lines 136-281). -/
def bsMain (cfg : BSConfig) (st : BSState) (record : Line) (continued_if : Bool)
    (stripped0 : Line) : Line × BSState :=
  -- lines 136-138: space before `;;` inside a case statement
  let stripped1 := if st.case_level ≠ 0 then fixSemiSemi stripped0 else stripped0
  -- line 140
  let test0 := get_test_record stripped1
  -- lines 142-144
  let prev := st.continue_line
  let cont := endsWithBackslash stripped1
  -- lines 145-147
  let inside_mqs := prev && cont && st.started_mqs
  -- lines 149-155
  let test1 := bsTest1 st test0 prev cont
  let ended_mqs := bsEnded st test0 prev cont
  if st.in_here_doc || inside_mqs || ended_mqs then
    bsHeredocEmit st record cont test1
  else
    bsNormal cfg st record continued_if stripped1 test1 prev cont ended_mqs

/-- One iteration of the `for record in re.split("\n", data)` loop of
`Beautify.beautify_string` (lines 123-282).  Returns the single output
line appended for this record together with the updated state. -/
def bsStep (cfg : BSConfig) (st : BSState) (record0 : Line) : Line × BSState :=
  -- line 124: record = record.rstrip()
  let record := rstrip record0
  -- line 125: stripped_record = record.strip()
  let stripped0 := pystrip record
  -- lines 126-129: continuation of a logical condition (see
  -- `continuedIfSearch` for the regex's real meaning)
  let continued_if := continuedIfSearch record
  if stripped0.isEmpty then
    -- lines 131-134: blank lines pass through and skip all state updates
    (stripped0, st)
  else
    bsMain cfg st record continued_if stripped0

/-- Run the loop of `beautify_string` over a list of records. -/
def bsRun (cfg : BSConfig) : List Line → BSState → List Line × BSState
  | [], st => ([], st)
  | r :: rs, st =>
    let (o, st1) := bsStep cfg st r
    let (os, st2) := bsRun cfg rs st1
    (o :: os, st2)

/-- Result of `beautify_string`: the joined output text and the error
flag `tab != 0` (lines 283-286), plus the count of `"esac" before "case"`
reports written to stderr along the way (lines 226-231). -/
structure BSResult where
  text : Line
  error : Bool
  esac_errors : Nat
deriving DecidableEq, Repr

/-- Model of `Beautify.beautify_string` (lines 106-286). -/
def beautify_string (cfg : BSConfig) (data : Line) : BSResult :=
  let (outs, st) := bsRun cfg (splitOnChar '\n' data) bsInit
  { text := joinNl outs, error := st.tab != 0, esac_errors := st.esac_errors }

/-- Match of the argument regex ` -{1,2}[a-zA-Z]+` at the current
position: a space, one or two hyphens (greedy with backtracking), then at
least one letter. -/
def argAt : Line → Bool
  | ' ' :: '-' :: rest =>
    (match rest with
     | '-' :: c :: _ => isAsciiLetter c
     | c :: _ => isAsciiLetter c
     | [] => false)
  | _ => false

/-- Model of `regexp.search(value)` for `regexp = re.compile(r' -{1,2}[a-zA-Z]+')`
(line 337). -/
def argSearch : Line → Bool
  | [] => false
  | c :: rest => argAt (c :: rest) || argSearch rest

/-- Model of `regexp.search(" %s" % w)` (lines 299, 304) applied to a
word `w`. -/
def isArgSplit (w : Line) : Bool := argSearch (' ' :: w)

/-- Python string comparison (`<`), code-point lexicographic. -/
def lineLt : Line → Line → Bool
  | [], [] => false
  | [], _ :: _ => true
  | _ :: _, [] => false
  | a :: as, b :: bs => if a < b then true else if b < a then false else lineLt as bs

/-- Stable insertion of a line into a sorted list: equal elements keep
their original relative order, as Python's `sorted` guarantees. -/
def insertLine (x : Line) : List Line → List Line
  | [] => [x]
  | y :: ys => if lineLt x y then x :: y :: ys else y :: insertLine x ys

/-- Model of Python `sorted` on a list of strings. -/
def sortLines (ls : List Line) : List Line := ls.foldl (fun acc x => insertLine x acc) []

/-- Python dict assignment `d[k] = v` on an insertion-ordered association
list: overwriting keeps the key's original position. -/
def assocUpd (k v : Line) : List (Line × Line) → List (Line × Line)
  | [] => [(k, v)]
  | (k', v') :: rest => if k' = k then (k, v) :: rest else (k', v') :: assocUpd k v rest

/-- Python `k in d`. -/
def assocHas (k : Line) : List (Line × Line) → Bool
  | [] => false
  | (k', _) :: rest => k' = k || assocHas k rest

/-- Python `d[k]` (call sites guarantee presence; absent keys give `[]`). -/
def assocGet (k : Line) : List (Line × Line) → Line
  | [] => []
  | (k', v) :: rest => if k' = k then v else assocGet k rest

/-- Model of `re.sub(r'^-*', '', w)` (line 318): strip all leading
hyphens. -/
def stripHyphens (w : Line) : Line := w.dropWhile (fun c => c = '-')

/-- Characters of `black_list = "|,&;"` (line 338). -/
def inBlackList (c : Char) : Bool := c = '|' || c = ',' || c = '&' || c = ';'

/-- Scanning loop of `reorder_arguments` (lines 297-311): walk the splits
from index 1, collecting flag/value pairs into the insertion-ordered
`arguments` dict together with `first_index` and `last_index`. -/
def raScanF (splits : List Line) : Nat → Nat → List (Line × Line) → Nat → Nat →
    List (Line × Line) × Nat × Nat
  | 0, _, args, fi, li => (args, fi, li)
  | f + 1, j, args, fi, li =>
    if j < splits.length then
      let w := splits.getD j []
      if isArgSplit w then
        let fi1 := if fi = 0 then j else fi
        let standalone := (j + 1 = splits.length) ||
          (let nxt := splits.getD (j + 1) []
           (nxt.take 1 ≠ ['\x22']) && (nxt.take 2 ≠ ['\\', '\x22']) &&
             (nxt.any inBlackList || isArgSplit nxt))
        if standalone then raScanF splits f (j + 1) (assocUpd w [] args) fi1 j
        else raScanF splits f (j + 1) (assocUpd w (' ' :: splits.getD (j + 1) []) args) fi1 (j + 1)
      else raScanF splits f (j + 1) args fi li
    else (args, fi, li)

/-- Scanning loop of `reorder_arguments` with fuel covering the index
range. -/
def raScan (splits : List Line) (j : Nat) (args : List (Line × Line))
    (fi li : Nat) : List (Line × Line) × Nat × Nat :=
  raScanF splits splits.length j args fi li

/-- Concatenate words, each preceded by one space (the `" %s"` appends of
`reorder_arguments`). -/
def joinSp (ls : List Line) : Line := ls.foldl (fun acc w => acc ++ ' ' :: w) []

/-- Model of `Beautify.reorder_arguments` (lines 288-333) with the fixed
`regexp` and `black_list` of `change_argument_order`.  `last_index` is
initialised to 0 in the embedding; in the source it is assigned on the
first qualifying split, and when `regexp.search(value)` holds some split
qualifies, so the initial value is never read. -/
def reorder_arguments (value : Line) : Line :=
  let splits := splitOnChar ' ' value
  if argSearch value then
    let (args, fi, li) := raScan splits 1 [] 0 0
    let head := splits.getD 0 []
    let lead := joinSp ((splits.drop 1).take (fi - 1))
    let sortedNames := sortLines (args.map (fun p => stripHyphens p.1))
    let mid := joinSp (sortedNames.map (fun name =>
      let k1 := '-' :: name
      let k2 := '-' :: '-' :: name
      let key := if assocHas k1 args then k1 else if assocHas k2 args then k2 else name
      key ++ assocGet key args))
    let trail := joinSp (splits.drop (li + 1))
    head ++ lead ++ mid ++ trail
  else
    let head := splits.getD 0 []
    head ++ joinSp (splits.drop 1)

/-- Match of the subshell regex ` -{1,2}[a-zA-Z] \$\(.*\)` (line 348) at
the current position; returns the matched length.  The greedy `.*`
extends the match to the last `)` of the remainder. -/
def ssMatchLen (s : Line) : Option Nat :=
  match s with
  | ' ' :: '-' :: rest =>
    let core : Option (Nat × Line) :=
      match rest with
      | '-' :: c :: ' ' :: '$' :: '(' :: r =>
        if isAsciiLetter c then some (7, r) else none
      | c :: ' ' :: '$' :: '(' :: r =>
        if isAsciiLetter c then some (6, r) else none
      | _ => none
    (match core with
     | some (k, r) =>
       (match r.reverse.findIdx? (fun c => c = ')') with
        | some i => some (k + (r.length - i))
        | none => none)
     | none => none)
  | _ => none

/-- Scanning loop of `re.findall(' -{1,2}[a-zA-Z] \$\(.*\)', line)`
(line 348): leftmost non-overlapping matches. -/
def ssFindallF : Nat → Line → List Line
  | 0, _ => []
  | _ + 1, [] => []
  | f + 1, c :: rest =>
    match ssMatchLen (c :: rest) with
    | some n =>
      (match n with
       | 0 => ssFindallF f rest
       | m + 1 => ((c :: rest).take (m + 1)) :: ssFindallF f (rest.drop m))
    | none => ssFindallF f rest

/-- Subshell findall with fuel instantiated to the string length. -/
def ssFindall (s : Line) : List Line := ssFindallF s.length s

/-- Match of the key regex `(-{1,2}[a-zA-Z]) \$` (line 352) at the
current position: returns the captured flag and the matched length. -/
def ssKeyAt (s : Line) : Option (Line × Nat) :=
  match s with
  | '-' :: '-' :: c :: ' ' :: '$' :: _ =>
    if isAsciiLetter c then some (['-', '-', c], 5)
    else none
  | '-' :: c :: ' ' :: '$' :: _ =>
    if isAsciiLetter c then some (['-', c], 4) else none
  | _ => none

/-- Scanning loop of `re.findall('(-{1,2}[a-zA-Z]) \$', b)` (line 352). -/
def ssKeysF : Nat → Line → List Line
  | 0, _ => []
  | _ + 1, [] => []
  | f + 1, c :: rest =>
    match ssKeyAt (c :: rest) with
    | some (key, n) =>
      (match n with
       | 0 => ssKeysF f rest
       | m + 1 => key :: ssKeysF f (rest.drop m))
    | none => ssKeysF f rest

/-- Key findall with fuel instantiated to the string length. -/
def ssKeys (s : Line) : List Line := ssKeysF s.length s

/-- Model of `re.findall('\$\(.*\)', b)` (line 353): at each position a
literal `$(` followed greedily by anything up to the last `)`;
non-overlapping, so at most one match can occur. -/
def ssValuesF : Nat → Line → List Line
  | 0, _ => []
  | _ + 1, [] => []
  | f + 1, c :: rest =>
    match c :: rest with
    | '$' :: '(' :: r =>
      (match r.reverse.findIdx? (fun d => d = ')') with
       | some i =>
         let n := 2 + (r.length - i)
         (('$' :: '(' :: r).take n) :: ssValuesF f (r.drop (r.length - i))
       | none => ssValuesF f ('(' :: r))
    | _ => ssValuesF f rest

/-- Value findall with fuel instantiated to the string length. -/
def ssValues (s : Line) : List Line := ssValuesF s.length s

/-- Python `zip`-style pairing of the `keys[i] -> values[i]` loop at
lines 355-356; `none` models the `IndexError` raised when `values` is
shorter than `keys`. -/
def ssPair (args : List (Line × Line)) : List Line → List Line → Option (List (Line × Line))
  | [], _ => some args
  | _ :: _, [] => none
  | k :: ks, v :: vs => ssPair (assocUpd k v args) ks vs

/-- Subshell-collection loop of `change_argument_order` (lines 347-356):
for each regex match, split on `)`, re-append `)` to nonempty pieces and
pair the flag keys with the subshell values found in each piece. -/
def ssCollect (line : Line) : Option (List (Line × Line)) :=
  (ssFindall line).foldl
    (fun acc a =>
      match acc with
      | none => none
      | some args =>
        (splitOnChar ')' a).foldl
          (fun acc2 b =>
            match acc2 with
            | none => none
            | some args2 =>
              if b.isEmpty then some args2
              else ssPair args2 (ssKeys (b ++ [')'])) (ssValues (b ++ [')'])))
          (some args))
    (some [])

/-- Delimiter match for `re.split(' [|&]{1,2} ', s)` (line 367): a space,
one or two pipe/ampersand characters (greedy), a space. -/
def pipeDelimLen (s : Line) : Option Nat :=
  match s with
  | ' ' :: a :: b :: c :: _ =>
    if (a = '|' || a = '&') && (b = '|' || b = '&') && c = ' ' then some 4
    else if (a = '|' || a = '&') && b = ' ' then some 3
    else none
  | ' ' :: a :: b :: _ =>
    if (a = '|' || a = '&') && b = ' ' then some 3 else none
  | _ => none

/-- Model of `re.split(' [|&]{1,2} ', s)` and `re.findall(' [|&]{1,2} ', s)`
(lines 367-369): the pieces between the delimiters and the delimiters
themselves. -/
def pipeSplitF : Nat → Line → List Line × List Line
  | 0, s => ([s], [])
  | _ + 1, [] => ([[]], [])
  | f + 1, c :: rest =>
    match pipeDelimLen (c :: rest) with
    | some n =>
      let (subs, pipes) := pipeSplitF f (rest.drop (n - 1))
      ([] :: subs, ((c :: rest).take n) :: pipes)
    | none =>
      let (subs, pipes) := pipeSplitF f rest
      (match subs with
       | h :: t => ((c :: h) :: t, pipes)
       | [] => ([[c]], pipes))

/-- Pipe split with fuel instantiated to the string length. -/
def pipeSplit (s : Line) : List Line × List Line := pipeSplitF s.length s

/-- Per-line body of `change_argument_order` for a qualifying line
(lines 344-385): collect subshells, delete their values, reorder each
pipeline segment and the subshell contents, reinsert the subshells, and
clean up spacing.  `none` models the `IndexError` of `ssPair`. -/
def processArgLine (line : Line) : Option Line :=
  match ssCollect line with
  | none => none
  | some subshells =>
    let nl1 := subshells.foldl (fun acc p => pyReplace acc p.2 []) line
    let subshells2 := subshells.map (fun p => (p.1, reorder_arguments (p.2.drop 2).dropLast))
    let (subs, pipes) := pipeSplit nl1
    let nl2 :=
      match subs.map reorder_arguments with
      | [] => []
      | s0 :: srest => s0 ++ (List.zip pipes srest).foldl (fun acc q => acc ++ q.1 ++ q.2) []
    let nl3 := subshells2.foldl
      (fun acc p => pyReplace acc p.1 (p.1 ++ lit " $(" ++ p.2 ++ [')'])) nl2
    some (rstrip (pyReplace nl3 (lit ")  ") (lit ") ")))

/-- One iteration of the `for line in lines` loop of
`Beautify.change_argument_order` (lines 343-392): skip lines with `[` or
`eval` or no flag match; otherwise reorder and substitute the old line
text throughout the running data with `str.replace`. -/
def caoStep (acc : Option (Line × Nat)) (l : Line) : Option (Line × Nat) :=
  match acc with
  | none => none
  | some (d, diag) =>
    if !containsSub (lit "[") l && !containsSub (lit "eval") l && argSearch l then
      match processArgLine l with
      | none => none
      | some nl =>
        let diag1 := if l ≠ nl then diag + 1 else diag
        some (pyReplace d l nl, diag1)
    else some (d, diag)

/-- Model of `Beautify.change_argument_order` (lines 335-392): iterate
over the lines of the original text; every qualifying line (no `[`, no
`eval`, matching the flag regex) is reordered and **all** occurrences of
the original line text in the accumulated data are replaced
(`data.replace(line, new_line)`, line 390).  Returns the new text and the
number of `argument order issue` diagnostics recorded; `none` models the
`IndexError` reachable in the subshell collection. -/
def change_argument_order (data : Line) : Option (Line × Nat) :=
  (splitOnChar '\n' data).foldl caoStep (some (data, 0))

/-- Python dict assignment for the `functions` dict of
`change_function_order`: overwriting a key keeps its insertion position. -/
def cfoAssocUpd (k : Line) (v : Nat × Nat) :
    List (Line × (Nat × Nat)) → List (Line × (Nat × Nat))
  | [] => [(k, v)]
  | (k', v') :: rest => if k' = k then (k, v) :: rest else (k', v') :: cfoAssocUpd k v rest

/-- Lookup in the `functions` dict. -/
def cfoAssocGet (k : Line) : List (Line × (Nat × Nat)) → Nat × Nat
  | [] => (0, 0)
  | (k', v) :: rest => if k' = k then v else cfoAssocGet k rest

/-- Scanning loop of `change_function_order` (lines 403-416): walk the
lines tracking the latest line containing `function` (regex
`function.*`); when a later line is exactly `}` record the pending
function (name with all `" {"` and `"function "` substrings removed) with
its start and stop line numbers. -/
def cfoGo : List Line → Nat → List (Line × (Nat × Nat)) → Option (Line × Nat) →
    List (Line × (Nat × Nat))
  | [], _, acc, _ => acc
  | l :: rest, i, acc, pending =>
    let pending1 :=
      if containsSub (lit "function") l then
        some (pyReplace (pyReplace l (lit " \x7b") []) (lit "function ") [], i)
      else pending
    let (acc2, pending2) :=
      if l = lit "\x7d" then
        match pending1 with
        | some (name, s) => (cfoAssocUpd name (s, i) acc, none)
        | none => (acc, pending1)
      else (acc, pending1)
    cfoGo rest (i + 1) acc2 pending2

/-- Emission of one function block (lines 426-434): each line followed by
a newline except a line that is exactly `}`. -/
def cfoEmitFun (lines : List Line) (start stop : Nat) : Line :=
  ((List.range' start (stop + 1 - start)).map (fun j =>
    let lj := lines.getD j []
    if lj = lit "\x7d" then lj else lj ++ ['\n'])).flatten

/-- Model of `Beautify.change_function_order` (lines 394-445).  `none`
models the `IndexError` raised at line 420 (`list(functions)[0]`) when the
text contains `function` but no function block is ever closed by a line
equal to `}`.  Returns the new text and the number of
`function order issue` diagnostics recorded. -/
def change_function_order (data : Line) : Option (Line × Nat) :=
  if containsSub (lit "function") data then
    let lines := splitOnChar '\n' data
    let functions := cfoGo lines 0 [] none
    match functions with
    | [] => none
    | f0 :: _ =>
      let pre := ((lines.take (f0.2.1)).map (fun l => l ++ ['\n'])).flatten
      let sortedNames := sortLines (functions.map (fun p => p.1))
      let nfun := sortedNames.length
      let mid := ((List.range nfun).map (fun i =>
        let (s, e) := cfoAssocGet (sortedNames.getD i []) functions
        cfoEmitFun lines s e ++ (if i < nfun - 1 then lit "\n\n" else []))).flatten
      let lastStop := (match functions.getLast? with
        | some p => p.2.2
        | none => 0)
      let post := (lines.drop (lastStop + 1)).flatten
      let new_data := pre ++ mid ++ post
      let diag := if new_data ≠ data then 1 else 0
      some (new_data, diag)
  else some (data, 0)

/-- Model of the regex `^\s*exit [0-9]*` (line 451): optional leading
whitespace, the literal `exit `, then any (possibly empty) digit run. -/
def exitRegexMatch (l : Line) : Bool := (lit "exit ").isPrefixOf (l.dropWhile isSpaceChar)

/-- Index loop of `check_line_break_before_exit_code` (lines 453-455),
mutating the line list in place as Python does.  `lines[i - 1]` uses
Python indexing: for `i = 0` it reads the **last** element. -/
def clbGoF : Nat → Nat → List Line → Nat → List Line
  | 0, _, lines, _ => lines
  | f + 1, n, lines, i =>
    if i < n then
      let prevIdx : Nat := if i = 0 then lines.length - 1 else i - 1
      let prev := lines.getD prevIdx []
      let cur := lines.getD i []
      let lines1 :=
        if exitRegexMatch cur && prev ≠ [] && !containsSub (lit "function") prev &&
            prev ≠ lit "then" && prev ≠ lit "do" then
          lines.set i ('\n' :: cur)
        else lines
      clbGoF f n lines1 (i + 1)
    else lines

/-- Index loop with fuel covering the index range. -/
def clbGo (n : Nat) (lines : List Line) (i : Nat) : List Line :=
  clbGoF n n lines i

/-- Model of `Beautify.check_line_break_before_exit_code` (lines 447-460).
The returned count of `exit commands without empty line` diagnostics is
always 0: the guarding `changed` flag is initialised `False` and never
assigned afterwards.  The loop bound `range(len(lines))` is fixed before
the loop starts. -/
def check_line_break_before_exit_code (data : Line) : Line × Nat :=
  let lines := splitOnChar '\n' data
  let changed := false
  let lines1 := clbGo lines.length lines 0
  (joinNl lines1, if changed then 1 else 0)

/-- Match of `^\s+[a-zA-z]+={1}[^=].*` (line 466): at least one leading
whitespace character, a nonempty run from the (buggy) class `[a-zA-z]`,
`=`, then one character that is not `=`. -/
def cvoPlainMatch (l : Line) : Bool :=
  match l with
  | c :: rest =>
    isSpaceChar c &&
      (let r := rest.dropWhile isSpaceChar
       let name := r.takeWhile isAtoLow
       !name.isEmpty &&
         (match r.drop name.length with
          | '=' :: d :: _ => !(d = '=')
          | _ => false))
  | [] => false

/-- Match of `^\s+kw\s+[a-zA-z]+={1}[^=].*` for `kw` ∈ {`local`,
`export`} (lines 467-468). -/
def cvoKwMatch (kw : Line) (l : Line) : Bool :=
  match l with
  | c :: rest =>
    isSpaceChar c &&
      (let r := rest.dropWhile isSpaceChar
       kw.isPrefixOf r &&
         (match r.drop kw.length with
          | d :: r2 =>
            isSpaceChar d &&
              (let r3 := r2.dropWhile isSpaceChar
               let name := r3.takeWhile isAtoLow
               !name.isEmpty &&
                 (match r3.drop name.length with
                  | '=' :: e :: _ => !(e = '=')
                  | _ => false))
          | [] => false))
  | [] => false

/-- Variable-name extraction of line 474: remove all spaces, all
`export` substrings, all `local` substrings and all tabs, then cut at the
first `=`. -/
def cvoName (l : Line) : Line :=
  let t := pyReplace l [' '] []
  let t := pyReplace t (lit "export") []
  let t := pyReplace t (lit "local") []
  let t := pyReplace t ['\t'] []
  t.takeWhile (fun c => !(c = '='))

/-- Advisory comment appended by `check_variable_order` (line 479). -/
def cvoSuffix : Line :=
  lit " -- Please change the order/name of this variable to be in ABC order."

/-- Python dict assignment for the `variables` dict (name to line index),
insertion-ordered with in-place overwrite. -/
def cvoAssocUpd (k : Line) (v : Nat) : List (Line × Nat) → List (Line × Nat)
  | [] => [(k, v)]
  | (k', v') :: rest => if k' = k then (k, v) :: rest else (k', v') :: cvoAssocUpd k v rest

/-- Annotate every recorded line of an unsorted assignment run
(lines 477-480). -/
def cvoAnnotate (vars : List (Line × Nat)) (lines : List Line) : List Line :=
  vars.foldl (fun acc p => acc.set p.2 (acc.getD p.2 [] ++ cvoSuffix)) lines

/-- Index loop of `check_variable_order` (lines 471-481): group maximal
runs of assignment lines; at the first non-assignment line after a run of
more than one variable whose names are not already sorted, annotate all
recorded lines.  Annotations only touch earlier indices, so the scan can
keep reading the current line from the evolving list exactly as the
source does. -/
def cvoGoF : Nat → Nat → List Line → Nat → List (Line × Nat) → Bool →
    List Line × Bool
  | 0, _, lines, _, _, changed => (lines, changed)
  | f + 1, n, lines, i, vars, changed =>
    if i < n then
      let line := lines.getD i []
      if cvoPlainMatch line || cvoKwMatch (lit "local") line ||
          cvoKwMatch (lit "export") line then
        cvoGoF f n lines (i + 1) (cvoAssocUpd (cvoName line) i vars) changed
      else if vars.length > 0 then
        if vars.length > 1 &&
            sortLines (vars.map (fun p => p.1)) ≠ vars.map (fun p => p.1) then
          cvoGoF f n (cvoAnnotate vars lines) (i + 1) [] true
        else cvoGoF f n lines (i + 1) [] changed
      else cvoGoF f n lines (i + 1) vars changed
    else (lines, changed)

/-- Index loop with fuel covering the index range. -/
def cvoGo (n : Nat) (lines : List Line) (i : Nat) (vars : List (Line × Nat))
    (changed : Bool) : List Line × Bool :=
  cvoGoF n n lines i vars changed

/-- Model of `Beautify.check_variable_order` (lines 462-486), returning
the annotated text and the number of `variables in wrong order`
diagnostics (0 or 1).  The loop bound `range(len(lines))` is fixed before
the loop starts, hence the explicit bound argument of `cvoGo`. -/
def check_variable_order (data : Line) : Line × Nat :=
  let lines := splitOnChar '\n' data
  let (lines1, changed) := cvoGo lines.length lines 0 [] false
  (joinNl lines1, if changed then 1 else 0)

/-- Model of `Beautify.check_last_line` (lines 488-503): pop empty lines
from the end, never popping index 0; a diagnostic is recorded when
anything was removed. -/
def check_last_line (data : Line) : Line × Nat :=
  let lines := splitOnChar '\n' data
  let t0 := (lines.reverse.takeWhile (fun l => l.isEmpty)).length
  let t := min t0 (lines.length - 1)
  (joinNl (lines.take (lines.length - t)), if 0 < t then 1 else 0)

/-- Full per-file configuration: the core settings plus the pass toggles
of `Beautify.__init__` (lines 34-47). -/
structure FileConfig where
  bs : BSConfig
  check_only : Bool
  argument_order : Bool
  function_order : Bool
  variable_order : Bool
  english : Bool
  line_end : Bool
  exit_code_check : Bool
deriving DecidableEq, Repr

/-- ASCII test of `result.encode('utf-8').decode('ascii')` (line 557):
decoding fails exactly when some character is outside the ASCII range. -/
def isAsciiLine (s : Line) : Bool := s.all (fun c => c.toNat ≤ 127)

/-- Tail of the `beautify_file` pipeline (lines 519-524): the last-line,
variable-order and exit-code passes, each applied when enabled. -/
def bfPost (cfg : FileConfig) (t2 : Line) : Line :=
  let t3 := if cfg.line_end then (check_last_line t2).1 else t2
  let t4 := if cfg.variable_order then (check_variable_order t3).1 else t3
  if cfg.exit_code_check then (check_line_break_before_exit_code t4).1 else t4

/-- Final error computation of `beautify_file` (lines 543-560): the
check-only comparison of input and output and the ASCII check. -/
def bfFinalErr (cfg : FileConfig) (data t5 : Line) (err1 : Bool) : Bool :=
  let err2 :=
    if data ≠ t5 then
      if cfg.check_only then
        if !err1 then decide (t5 ≠ data) else err1
      else err1
    else err1
  if cfg.english && !isAsciiLine t5 then true else err2

/-- Argument-order stage of `beautify_file` (lines 530-531). -/
def bfStep1 (cfg : FileConfig) (r0text : Line) : Option Line :=
  if cfg.argument_order then (change_argument_order r0text).map (fun p => p.1)
  else some r0text

/-- Function-order stage of `beautify_file` (lines 532-536), including
the unsupported-style error. -/
def bfStep2 (cfg : FileConfig) (r0err : Bool) (t1 : Line) : Option (Line × Bool) :=
  if cfg.function_order && cfg.bs.apply_function_style = some 1 then
    (change_function_order t1).map (fun p => (p.1, r0err))
  else if cfg.function_order then some (t1, true)
  else some (t1, r0err)

/-- Model of the computation of `Beautify.beautify_file` for a named file
(lines 526-566), without the I/O: the final text and the per-file error
flag.  `none` models an uncaught exception from `change_argument_order`
or `change_function_order`.  The `check_only` branch (lines 543-549) sets
the flag when the output differs from the input; writing the file and
printing the diff are external effects with no influence on the result. -/
def beautify_file_core (cfg : FileConfig) (data : Line) : Option (Line × Bool) :=
  let r0 := beautify_string cfg.bs data
  (bfStep1 cfg r0.text).bind (fun t1 =>
    (bfStep2 cfg r0.error t1).map (fun p =>
      (bfPost cfg p.1, bfFinalErr cfg data (bfPost cfg p.1) p.2)))

/-! ### Specification-side definitions

The following definitions render wording of the claims themselves (not
the source); they are used to compare the claims against the embedded
code. -/

/-- Split on every character satisfying the predicate (separator
characters are discarded, empty pieces kept). -/
def splitOnPred (p : Char → Bool) : Line → List Line
  | [] => [[]]
  | c :: rest =>
    let r := splitOnPred p rest
    if p c then [] :: r
    else
      match r with
      | h :: t => (c :: h) :: t
      | [] => [[c]]

/-- Count whole words of a script, splitting on whitespace and `;`
(specification wording helper). -/
def specWords (data : Line) : List Line :=
  (splitOnPred (fun c => isSpaceChar c || c = ';') data).filter (fun w => !w.isEmpty)

/-- Number of occurrences of a whole word among `specWords`. -/
def specWordCount (w : Line) (data : Line) : Nat :=
  (specWords data).countP (fun x => x = w)

/-- Spec wording of the hypothesis of the balanced-construct claim: every
`if`/`then`/`fi`, `case`/`esac` and `{}`/`()`/`[]` pair is balanced (as
whole words, respectively single characters). -/
def specBalanced (data : Line) : Bool :=
  specWordCount (lit "if") data = specWordCount (lit "fi") data &&
  specWordCount (lit "then") data = specWordCount (lit "fi") data &&
  specWordCount (lit "case") data = specWordCount (lit "esac") data &&
  countChar '\x7b' data = countChar '\x7d' data &&
  countChar '(' data = countChar ')' data &&
  countChar '[' data = countChar ']' data

/-- Spec wording of the pass-through condition of the line-continuation
claim: the line ends in `&`, `&&`, `|` or `||`. -/
def specEndsConnector (l : Line) : Bool :=
  match l.getLast? with
  | some c => c = '&' || c = '|'
  | none => false

/-- Spec wording of the exit-code-spacing condition, evaluated on the
original line list with the code's actual predecessor convention (the
predecessor of the first line is the file's last line). -/
def specExitPrepend (lines : List Line) (i : Nat) : Bool :=
  let prevIdx : Nat := if i = 0 then lines.length - 1 else i - 1
  let p := lines.getD prevIdx []
  exitRegexMatch (lines.getD i []) && p ≠ [] && !containsSub (lit "function") p &&
    p ≠ lit "then" && p ≠ lit "do"

/-- Spec-level description of the exit-code-spacing pass: prepend a blank
line to every line satisfying `specExitPrepend`, all conditions read from
the original lines. -/
def specExitLines (lines : List Line) : List Line :=
  (List.range lines.length).map
    (fun i => if specExitPrepend lines i then '\n' :: lines.getD i [] else lines.getD i [])

/-! ### The simple-structural-line shadow model

`plainLine` carves out lines on which the quoting / here-document /
continuation machinery of `beautify_string` is inert; on such lines the
state machine collapses to the keyword-counting shadow below, which is
the vehicle for the balanced-construct and idempotence claims. -/

/-- Characters that trigger the quoting, escaping, comment, or
here-document machinery. -/
def specialChar (c : Char) : Bool :=
  c = '\x27' || c = '\x22' || c = '\x60' || c = '\\' || c = '#' || c = '<'

/-- A simple structural line: nonblank, without quoting / escape /
comment / here-document characters, without `&` anywhere or `|` at the
end (which would make it a continuation line), with `;;` already spaced
(the case-level cosmetic fix is a no-op), and with balanced `[` `]`
counts on the line itself. -/
def plainLine (l : Line) : Bool :=
  let r := rstrip l
  let s := pystrip l
  !s.isEmpty &&
  s.all (fun c => !specialChar c) &&
  !r.any (fun c => c = '&') &&
  (match r.getLast? with | some c => !(c = '|') | none => true) &&
  decide (fixSemiSemi s = s) &&
  decide (countChar '[' s = countChar ']' s)

/-- Per-line data of the counting block (lines 217-263) on a simple
structural line with simplified record `t` and current case level `cl`. -/
structure PlainStep where
  net : Int
  cl2 : Nat
  esacUnder : Bool
  choice : Int
  elsec : Int
deriving DecidableEq, Repr

/-- Shadow of the counting block of `beautify_string` (lines 217-263) for
a line whose simplified record is the line itself. -/
def plainStepOf (cl : Nat) (t : Line) : PlainStep :=
  let inc0 := countKwAll kwsInc tailInc t + countOpenChars t
  let outc0 := countKwAll kwsOut tailOutc t + countCloseChars t
  let esacF := searchWord (lit "esac") t
  let outc1 := if esacF then (if cl = 0 then outc0 else outc0 + 1) else outc0
  let cl1 := if esacF then (if cl = 0 then cl else cl - 1) else cl
  let eU := if esacF then (if cl = 0 then true else false) else false
  let caseF := searchWord (lit "case") t
  let inc1 := if caseF then inc0 + 1 else inc0
  let cl2 := if caseF then cl1 + 1 else cl1
  let choiceF := cl2 ≠ 0 && closeParenFirst t
  let inc2 := if choiceF then inc1 + 1 else inc1
  let choice : Int := if choiceF then -1 else 0
  let elsec : Int := if elseElifCase t then -1 else 0
  { net := (inc2 : Int) - (outc1 : Int), cl2 := cl2, esacUnder := eU,
    choice := choice, elsec := elsec }

/-- Shadow of the emitted line for a simple structural line l with
running depth `tab` and case level `cl` (lines 259-272; the
previous-line-continuation bonus is absent because plain lines never end
in a backslash). -/
def plainOutLine (cfg : BSConfig) (tab : Int) (cl : Nat) (l : Line) : Line :=
  let s := pystrip l
  let p := plainStepOf cl s
  let tab1 := tab + min p.net 0
  let extab := max 0 (tab1 + p.elsec + p.choice)
  List.replicate (cfg.tab_size * extab.toNat) cfg.tab_str ++
    change_function_style cfg.apply_function_style s (detect_function_style s)

/-- Shadow of the state update for a simple structural line. -/
def plainNextState (st : BSState) (l : Line) : BSState :=
  let p := plainStepOf st.case_level (pystrip l)
  { st with tab := st.tab + p.net, case_level := p.cl2,
            esac_errors := st.esac_errors + (if p.esacUnder then 1 else 0) }

/-- Shadow of the whole scan state over a list of lines (blank lines
leave the state untouched). -/
def plainRunState (st : BSState) : List Line → BSState
  | [] => st
  | l :: ls =>
    if (pystrip l).isEmpty then plainRunState st ls
    else plainRunState (plainNextState st l) ls

/-- Shadow of the emitted lines over a list of lines. -/
def plainOuts (cfg : BSConfig) (st : BSState) : List Line → List Line
  | [] => []
  | l :: ls =>
    if (pystrip l).isEmpty then [] :: plainOuts cfg st ls
    else plainOutLine cfg st.tab st.case_level l :: plainOuts cfg (plainNextState st l) ls

/-- States in which the quoting / here-document / continuation machinery
is inert: everything except `tab`, `case_level` and `esac_errors` is at
its initial value. -/
def normalState (st : BSState) : Prop :=
  st.continue_line = false ∧ st.started_mqs = false ∧ st.open_brackets = 0 ∧
  st.in_here_doc = false ∧ st.defer_ext_quote = false ∧ st.in_ext_quote = false ∧
  st.formatter = true

/-- Default full-file configuration (all optional passes off), as in
`Beautify.__init__`. -/
def defaultFileCfg : FileConfig :=
  { bs := defaultCfg, check_only := false, argument_order := false,
    function_order := false, variable_order := false, english := false,
    line_end := false, exit_code_check := false }

/-- Qualification test of `change_argument_order` (line 343): no `[`, no
`eval`, and the flag regex matches. -/
def caoQualifies (l : Line) : Bool :=
  !containsSub (lit "[") l && !containsSub (lit "eval") l && argSearch l

/-- Condition under which a line keeps an open here-document open: the
terminator regex (`|`-alternation of literal pieces, see
`hereRegexSearch`) does not match its simplified form, or a new `<<` is
present (lines 163-165). -/
def hereKeepsOpen (hs : Line) (cl : Nat) (l : Line) : Bool :=
  let t := get_test_record (if cl ≠ 0 then fixSemiSemi (pystrip (rstrip l))
    else pystrip (rstrip l))
  !(hereRegexSearch hs t && !containsSub (lit "<<") t)

/-! ## Theorems -/

set_option maxRecDepth 100000

/-- C7: with the argument-order pass enabled, `cmd -c val1 -a val2 -b` is
rewritten so its flags appear as `-a val2 -b -c val1` (flags sorted
alphabetically ignoring leading hyphens, each keeping its paired value and
original hyphen prefix), and `cmd --zebra 1 --apple 2` becomes
`cmd --apple 2 --zebra 1`, with an argument-order diagnostic recorded for
the file in each case. -/
theorem claim_C7_argument_reorder :
    change_argument_order (lit "cmd -c val1 -a val2 -b") =
      some (lit "cmd -a val2 -b -c val1", 1) ∧
    change_argument_order (lit "cmd --zebra 1 --apple 2") =
      some (lit "cmd --apple 2 --zebra 1", 1) := by
  decide

/-- C6: the function-order pass does **not** always terminate normally:
on the two-line input `function foo {` / `:` (a `function` keyword with no
closing `}` line) the source raises an uncaught `IndexError` at
`list(functions)[0]` (line 420), modelled here by the `none` result.  This
contradicts the spec's "no condition under which the core
throws/propagates an unrecoverable fault". -/
theorem claim_C6_function_order_crash :
    change_function_order (lit "function foo \x7b\n:") = none := by
  decide

/-- C1 counterexample: a script in which every `if/then/fi`, `case/esac`
and bracket pair is balanced (`if a & b; then` / `:` / `fi`) but for
which `beautify_string` ends with nonzero running depth and a true error
flag: the `&` on the `if` line makes the line-continuation regex treat it
as pre-formatted, so its `then` is never counted while the closing `fi`
is. -/
theorem claim_C1_counterexample :
    specBalanced (lit "if a & b; then\n:\nfi") = true ∧
    (beautify_string defaultCfg (lit "if a & b; then\n:\nfi")).error = true := by
  decide

/-- C2 counterexample: reformatting already-beautified text can change it
again.  Beautifying `case x in` / `a;;;;` / `esac` yields a line
`a ;;;;`, and beautifying that output once more inserts another space
(`a ; ;;;`): the `;;`-spacing substitution is not idempotent on runs of
semicolons. -/
theorem claim_C2_counterexample :
    (beautify_string defaultCfg
        (beautify_string defaultCfg (lit "case x in\na;;;;\nesac")).text).text ≠
      (beautify_string defaultCfg (lit "case x in\na;;;;\nesac")).text := by
  decide

/-- C3 counterexample: a here-document body line is **not** always
emitted byte-for-byte unchanged: trailing whitespace is removed by the
unconditional `record.rstrip()` (line 124).  The body line `hello ` (with
a trailing space) between `cat <<EOF` and `EOF` is emitted as `hello`. -/
theorem claim_C3_counterexample :
    (beautify_string defaultCfg (lit "cat <<EOF\nhello \nEOF")).text =
      lit "cat <<EOF\nhello\nEOF" ∧
    lit "cat <<EOF\nhello\nEOF" ≠ lit "cat <<EOF\nhello \nEOF" := by
  decide

/-- C4 counterexample: the indented line `    a & b` is passed through
completely unchanged (it is not re-emitted at computed indentation 0,
which would be its stripped form), yet the running open-bracket count is
zero and the line does not end in `&`, `&&`, `|` or `||`: the claim's
pass-through condition is wrong because the regex at line 128 matches an
ampersand **anywhere** in the line. -/
theorem claim_C4_counterexample :
    (beautify_string defaultCfg (lit "    a & b")).text = lit "    a & b" ∧
    specEndsConnector (rstrip (lit "    a & b")) = false ∧
    pystrip (lit "    a & b") ≠ lit "    a & b" := by
  decide

/-- C5 counterexample: an `esac` with no open `case` does **not** by
itself make the per-file error flag true.  On the single line `{ esac`
the scan reports `"esac" before "case"` once, but the net indent delta is
zero (`{` against the keyword count of `esac`), so `beautify_string`
returns a false error flag and `beautify_file` keeps it false. -/
theorem claim_C5_counterexample :
    (beautify_string defaultCfg (lit "\x7b esac")).esac_errors = 1 ∧
    beautify_file_core defaultFileCfg (lit "\x7b esac") =
      some (lit "\x7b esac", false) := by
  decide

/-- C9 counterexample: the exit-code pass does not only react to a
non-blank *preceding* line: for the one-line file `exit 0` there is no
preceding line at all, yet Python's `lines[i - 1]` wraps around to the
last line (the `exit 0` itself), so a blank line is prepended. -/
theorem claim_C9_counterexample :
    check_line_break_before_exit_code (lit "exit 0") = (lit "\nexit 0", 0) ∧
    lit "\nexit 0" ≠ lit "exit 0" := by
  decide

/-- C10 counterexample: `data.replace(line, new_line)` is substring
based, so a **non-identical** line that merely contains the qualifying
line's text is rewritten too: here the second line `[ x cmd -b -a`
contains `[`, is never itself processed, and still comes out changed. -/
theorem claim_C10_counterexample :
    change_argument_order (lit "cmd -b -a\n[ x cmd -b -a") =
      some (lit "cmd -a -b\n[ x cmd -a -b", 1) ∧
    lit "[ x cmd -a -b" ≠ lit "[ x cmd -b -a" := by
  decide

/-- Helper: the error flag produced by the function-order stage. -/
theorem bfStep2_spec (cfg : FileConfig) (r0err : Bool) (t1 t2 : Line) (err1 : Bool)
    (h : bfStep2 cfg r0err t1 = some (t2, err1)) :
    err1 = (r0err || (cfg.function_order && !decide (cfg.bs.apply_function_style = some 1))) := by
  unfold bfStep2 at h
  cases hfo : cfg.function_order
  · rw [hfo] at h
    simp only [Bool.false_and, Bool.false_eq_true, if_false, Option.some.injEq,
      Prod.mk.injEq] at h
    rw [← h.2]
    simp [hfo]
  · rw [hfo] at h
    cases hap : decide (cfg.bs.apply_function_style = some 1)
    · rw [hap] at h
      simp only [Bool.and_false, Bool.true_and, Bool.false_eq_true, if_false,
        if_true, reduceIte, Option.some.injEq, Prod.mk.injEq] at h
      rw [← h.2]
      simp [hfo, hap]
    · rw [hap] at h
      simp only [Bool.and_true, Bool.true_and, if_true, reduceIte] at h
      cases hc : change_function_order t1 <;> rw [hc] at h
      · cases h
      · simp only [Option.map_some', Option.some.injEq, Prod.mk.injEq] at h
        rw [← h.2]
        simp [hfo, hap]

/-- Helper: closed form of the final error computation. -/
theorem bfFinalErr_eq (cfg : FileConfig) (data t5 : Line) (err1 : Bool) :
    bfFinalErr cfg data t5 err1 =
      (err1 || (cfg.check_only && decide (data ≠ t5)) ||
        (cfg.english && !isAsciiLine t5)) := by
  unfold bfFinalErr
  by_cases hd : data = t5
  · simp only [hd, ne_eq, not_true_eq_false, if_false]
    cases err1 <;> cases cfg.english <;> cases isAsciiLine t5 <;> simp
  · have hd2 : (t5 ≠ data) := fun hh => hd hh.symm
    simp only [ne_eq, hd, hd2, not_false_eq_true, if_true]
    cases err1 <;> cases cfg.english <;> cases cfg.check_only <;> cases isAsciiLine t5 <;>
      simp [hd]

/-- C5 (amended): whenever the per-file pipeline completes, its error
flag is **exactly**: the unbalanced-indentation flag of
`beautify_string`, or the function-order pass requested with a style
other than keyword-only, or — in check-only mode — the output differing
from the input, or non-ASCII output when the ASCII check is enabled.  An
`esac` without `case` is only reported to stderr and does not by itself
set the flag (see the counterexample). -/
theorem claim_C5_amended (cfg : FileConfig) (data t : Line) (e : Bool)
    (h : beautify_file_core cfg data = some (t, e)) :
    e = ((beautify_string cfg.bs data).error
          || (cfg.function_order && !(decide (cfg.bs.apply_function_style = some 1)))
          || (cfg.check_only && decide (data ≠ t))
          || (cfg.english && !isAsciiLine t)) := by
  unfold beautify_file_core at h
  rw [Option.bind_eq_some] at h
  obtain ⟨t1, hs1, h⟩ := h
  rw [Option.map_eq_some'] at h
  obtain ⟨⟨t2, err1⟩, hs2, h⟩ := h
  simp only [Prod.mk.injEq] at h
  obtain ⟨ht, he⟩ := h
  subst ht
  rw [← he, bfFinalErr_eq, bfStep2_spec cfg (beautify_string cfg.bs data).error t1 t2 err1 hs2]

/-- C5 witness: the amended characterisation applied to the concrete file
`echo` under the default configuration. -/
theorem claim_C5_amended_witness :
    beautify_file_core defaultFileCfg (lit "echo") = some (lit "echo", false) ∧
    false = ((beautify_string defaultFileCfg.bs (lit "echo")).error
          || (defaultFileCfg.function_order &&
                !(decide (defaultFileCfg.bs.apply_function_style = some 1)))
          || (defaultFileCfg.check_only && decide (lit "echo" ≠ lit "echo"))
          || (defaultFileCfg.english && !isAsciiLine (lit "echo"))) :=
  ⟨by decide, claim_C5_amended defaultFileCfg (lit "echo") (lit "echo") false (by decide)⟩

/-!  The scanner definitions below are only rewritten through their
equations in the remaining proofs; marking them locally irreducible keeps
`simp`'s defeq checks from evaluating them on symbolic arguments.  The
attribute expires with the section, before the concrete witnesses at the
end of the file. -/

/-! ### The exit-code spacing pass (C9) -/

/-- A line matching the exit regex is nonempty. -/
theorem exitMatch_ne_nil (p : Line) (h : exitRegexMatch p = true) : p ≠ [] := by
  intro he; rw [he] at h; revert h; decide

/-- A line matching the exit regex is not the bare keyword `then`. -/
theorem exitMatch_ne_then (p : Line) (h : exitRegexMatch p = true) : p ≠ lit "then" := by
  intro he; rw [he] at h; revert h; decide

/-- A line matching the exit regex is not the bare keyword `do`. -/
theorem exitMatch_ne_do (p : Line) (h : exitRegexMatch p = true) : p ≠ lit "do" := by
  intro he; rw [he] at h; revert h; decide

/-- Substring containment is unchanged by prepending a character that
does not start an occurrence. -/
theorem containsSub_cons_skip (w p : Line) (c : Char)
    (hw : w.isPrefixOf (c :: p) = false) :
    containsSub w (c :: p) = containsSub w p := by
  rw [containsSub, hw, Bool.false_or]

/-- `function` never starts at a prepended newline. -/
theorem function_prefix_nl (p : Line) :
    (lit "function").isPrefixOf ('\n' :: p) = false := by
  have h : lit "function" = 'f' :: lit "unction" := by decide
  rw [h]
  show ('f' == '\n' && (lit "unction").isPrefixOf p) = false
  rw [show ('f' == '\n') = false from rfl, Bool.false_and]

/-- A line starting with a newline is not the keyword `then`. -/
theorem nl_cons_ne_then (p : Line) : ('\n' :: p) ≠ lit "then" := by
  intro h
  rw [show lit "then" = 't' :: lit "hen" from (by decide)] at h
  injection h with h1 h2
  exact absurd h1 (by decide)

/-- A line starting with a newline is not the keyword `do`. -/
theorem nl_cons_ne_do (p : Line) : ('\n' :: p) ≠ lit "do" := by
  intro h
  rw [show lit "do" = 'd' :: lit "o" from (by decide)] at h
  injection h with h1 h2
  exact absurd h1 (by decide)

theorem getD_set_ne (l : List Line) (i j : Nat) (a : Line) (h : i ≠ j) :
    (l.set i a).getD j [] = l.getD j [] := by
  rw [List.getD, List.getD, List.get?_eq_getElem?, List.get?_eq_getElem?,
    List.getElem?_set_ne h]

theorem getD_set_self (l : List Line) (i : Nat) (a : Line) (h : i < l.length) :
    (l.set i a).getD i [] = a := by
  rw [List.getD, List.get?_eq_getElem?, List.getElem?_set_eq_of_lt a h]
  rfl

/-- Two lists of lines of equal length agreeing at every index are equal. -/
theorem list_ext_getD : ∀ (l1 l2 : List Line), l1.length = l2.length →
    (∀ j, j < l1.length → l1.getD j [] = l2.getD j []) → l1 = l2
  | [], [], _, _ => rfl
  | [], y :: ys, h, _ => by simp at h
  | x :: xs, [], h, _ => by simp at h
  | x :: xs, y :: ys, h, hg => by
    have h0 := hg 0 (Nat.succ_pos _)
    rw [List.getD_cons_zero, List.getD_cons_zero] at h0
    have ht := list_ext_getD xs ys (Nat.succ_injective h) (fun j hj => by
      have hh := hg (j + 1) (Nat.succ_lt_succ hj)
      rwa [List.getD_cons_succ, List.getD_cons_succ] at hh)
    rw [h0, ht]

theorem specExitLines_length (lines : List Line) :
    (specExitLines lines).length = lines.length := by
  unfold specExitLines
  rw [List.length_map, List.length_range]

theorem specExitLines_getD (lines : List Line) (j : Nat) (h : j < lines.length) :
    (specExitLines lines).getD j [] =
      (if specExitPrepend lines j then '\n' :: lines.getD j [] else lines.getD j []) := by
  unfold specExitLines
  have hl : j < ((List.range lines.length).map (fun i =>
      if specExitPrepend lines i then '\n' :: lines.getD i [] else lines.getD i [])).length := by
    rw [List.length_map, List.length_range]; exact h
  rw [List.getD_eq_getElem _ _ hl]
  simp

/-- The mutation condition of iteration `i` of the exit-code loop,
evaluated on the partially mutated list, coincides with the spec-side
condition read from the original lines: indices `≥ i` are still original,
and a mutated predecessor `'\n' :: p` satisfies each conjunct exactly
when `p` does, because a mutated `p` matched the exit regex. -/
theorem clb_cond_eq (lines acc : List Line) (i : Nat)
    (hlen : acc.length = lines.length) (hi : i < lines.length)
    (hge : ∀ j, i ≤ j → acc.getD j [] = lines.getD j [])
    (hlt : ∀ j, j < i → acc.getD j [] =
      (if specExitPrepend lines j then '\n' :: lines.getD j [] else lines.getD j [])) :
    (exitRegexMatch (acc.getD i []) &&
      acc.getD (if i = 0 then acc.length - 1 else i - 1) [] ≠ [] &&
      !containsSub (lit "function")
        (acc.getD (if i = 0 then acc.length - 1 else i - 1) []) &&
      acc.getD (if i = 0 then acc.length - 1 else i - 1) [] ≠ lit "then" &&
      acc.getD (if i = 0 then acc.length - 1 else i - 1) [] ≠ lit "do") =
    specExitPrepend lines i := by
  have hcur : acc.getD i [] = lines.getD i [] := hge i (Nat.le_refl i)
  simp only [specExitPrepend]
  rcases Nat.eq_zero_or_pos i with h0 | hpos
  · subst h0
    rw [if_pos rfl, if_pos rfl, hlen, hcur,
      hge (lines.length - 1) (Nat.zero_le _)]
  · have hne : i ≠ 0 := Nat.pos_iff_ne_zero.mp hpos
    rw [if_neg hne, if_neg hne, hcur]
    have hklt : i - 1 < i := Nat.sub_lt hpos Nat.one_pos
    rw [hlt (i - 1) hklt]
    by_cases hk : specExitPrepend lines (i - 1) = true
    · rw [if_pos hk]
      have hm : exitRegexMatch (lines.getD (i - 1) []) = true := by
        unfold specExitPrepend at hk
        rw [Bool.and_eq_true, Bool.and_eq_true, Bool.and_eq_true,
          Bool.and_eq_true] at hk
        exact hk.1.1.1.1
      have hpn := exitMatch_ne_nil _ hm
      have hpt := exitMatch_ne_then _ hm
      have hpd := exitMatch_ne_do _ hm
      rw [decide_eq_true (List.cons_ne_nil '\n' (lines.getD (i - 1) [])),
        decide_eq_true hpn,
        containsSub_cons_skip _ _ '\n' (function_prefix_nl _),
        decide_eq_true (nl_cons_ne_then _), decide_eq_true hpt,
        decide_eq_true (nl_cons_ne_do _), decide_eq_true hpd]
    · rw [if_neg hk]

/-- Invariant induction for the exit-code loop: once every index below
`i` holds its spec-side value and every index from `i` on is original,
running the loop from `i` with enough fuel produces `specExitLines`. -/
theorem clbGoF_spec : ∀ (f : Nat) (lines acc : List Line) (i : Nat),
    acc.length = lines.length → lines.length ≤ f + i →
    (∀ j, i ≤ j → acc.getD j [] = lines.getD j []) →
    (∀ j, j < i → acc.getD j [] =
      (if specExitPrepend lines j then '\n' :: lines.getD j [] else lines.getD j [])) →
    clbGoF f lines.length acc i = specExitLines lines := by
  intro f
  induction f with
  | zero =>
    intro lines acc i hlen hfuel hge hlt
    rw [Nat.zero_add] at hfuel
    rw [clbGoF]
    refine list_ext_getD acc (specExitLines lines) ?_ ?_
    · rw [hlen, specExitLines_length]
    · intro j hj
      have hjn : j < lines.length := hlen ▸ hj
      rw [hlt j (Nat.lt_of_lt_of_le hjn hfuel), specExitLines_getD lines j hjn]
  | succ f ih =>
    intro lines acc i hlen hfuel hge hlt
    by_cases hi : i < lines.length
    · simp only [clbGoF]
      rw [if_pos hi]
      rw [clb_cond_eq lines acc i hlen hi hge hlt]
      by_cases hc : specExitPrepend lines i = true
      · rw [if_pos hc]
        apply ih lines (acc.set i ('\n' :: acc.getD i [])) (i + 1)
        · rw [List.length_set, hlen]
        · omega
        · intro j hj
          rw [getD_set_ne acc i j _ (by omega), hge j (by omega)]
        · intro j hj
          rcases Nat.lt_or_ge j i with hji | hji
          · rw [getD_set_ne acc i j _ (by omega), hlt j hji]
          · have hji2 : j = i := by omega
            subst hji2
            rw [getD_set_self acc j _ (by rw [hlen]; exact hi),
              hge j (Nat.le_refl j), if_pos hc]
      · rw [if_neg hc]
        apply ih lines acc (i + 1) hlen (by omega)
        · intro j hj
          exact hge j (by omega)
        · intro j hj
          rcases Nat.lt_or_ge j i with hji | hji
          · exact hlt j hji
          · have hji2 : j = i := by omega
            subst hji2
            rw [hge j (Nat.le_refl j), if_neg hc]
    · rw [clbGoF, if_neg hi]
      refine list_ext_getD acc (specExitLines lines) ?_ ?_
      · rw [hlen, specExitLines_length]
      · intro j hj
        have hjn : j < lines.length := hlen ▸ hj
        rw [hlt j (by omega), specExitLines_getD lines j hjn]

/-- The exit-code loop started on the original lines computes the
spec-side line list. -/
theorem clbGo_spec (lines : List Line) :
    clbGo lines.length lines 0 = specExitLines lines := by
  unfold clbGo
  exact clbGoF_spec lines.length lines lines 0 rfl (by omega)
    (fun j _ => rfl) (fun j hj => absurd hj (Nat.not_lt_zero j))

/-- C9 (corrected): the exit-code pass prepends a blank line to exactly
the lines matching `^\\s*exit [0-9]*` whose predecessor — with Python
wraparound, so the predecessor of the FIRST line is the file's LAST line —
read from the original lines, is nonblank, does not contain `function`,
and is not the bare `then` or `do`; and for every input it records zero
diagnostics, the guarding `changed` flag being never set. -/
theorem claim_C9_amended (data : Line) :
    check_line_break_before_exit_code data =
      (joinNl (specExitLines (splitOnChar '\n' data)), 0) := by
  simp only [check_line_break_before_exit_code]
  rw [clbGo_spec, if_neg (by decide)]

/-! ### Function-style round-trip (C8) -/

/-- A word character is not whitespace. -/
theorem word_not_space (c : Char) (h : isWordChar c = true) : isSpaceChar c = false := by
  cases hs : isSpaceChar c
  · rfl
  · exfalso
    unfold isSpaceChar at hs
    simp only [Bool.or_eq_true, decide_eq_true_eq] at hs
    rcases hs with ((((h1 | h2) | h3) | h4) | h5) | h6 <;> subst_vars <;>
      revert h <;> decide

/-- A list of elements all satisfying `p` is its own `takeWhile`. -/
theorem takeWhile_all (p : Char → Bool) : ∀ (l : Line), (∀ x ∈ l, p x = true) →
    l.takeWhile p = l
  | [], _ => rfl
  | c :: t, h => by
    rw [List.takeWhile_cons, h c (List.mem_cons_self c t), if_pos rfl,
      takeWhile_all p t (fun x hx => h x (List.mem_cons_of_mem c hx))]

/-- `takeWhile` over an append stops exactly at the first failing
character. -/
theorem takeWhile_append_cons (p : Char → Bool) : ∀ (a : Line) (c : Char) (b : Line),
    (∀ x ∈ a, p x = true) → p c = false →
    (a ++ c :: b).takeWhile p = a
  | [], c, b, _, hc => by
    rw [List.nil_append, List.takeWhile_cons, hc]
    simp
  | x :: xs, c, b, ha, hc => by
    rw [List.cons_append, List.takeWhile_cons, ha x (List.mem_cons_self x xs),
      if_pos rfl, takeWhile_append_cons p xs c b
        (fun y hy => ha y (List.mem_cons_of_mem x hy)) hc]

/-- An all-failing list has an empty `takeWhile`. -/
theorem takeWhile_nil_of_all (p : Char → Bool) (r : Line)
    (h : ∀ c ∈ r, p c = false) : r.takeWhile p = [] := by
  cases r with
  | nil => rfl
  | cons c t =>
    rw [List.takeWhile_cons, h c (List.mem_cons_self c t)]
    simp

/-- Dropping a trailing space commutes with `rstrip`. -/
theorem rstrip_append_space (l : Line) : rstrip (l ++ lit " ") = rstrip l := by
  unfold rstrip
  rw [show lit " " = [' '] from by decide, List.reverse_append]
  simp only [List.reverse_cons, List.reverse_nil, List.nil_append,
    List.singleton_append, List.dropWhile_cons]
  rw [show isSpaceChar ' ' = true from by decide]
  simp

/-- `rstrip` keeps a line ending in a non-whitespace character intact. -/
theorem rstrip_append_singleton (l : Line) (c : Char) (hc : isSpaceChar c = false) :
    rstrip (l ++ [c]) = l ++ [c] := by
  unfold rstrip
  rw [List.reverse_append]
  simp only [List.reverse_cons, List.reverse_nil, List.nil_append,
    List.singleton_append, List.dropWhile_cons, hc]
  simp

/-- `lstrip` keeps a line starting with a non-whitespace character intact. -/
theorem lstrip_cons (c : Char) (l : Line) (hc : isSpaceChar c = false) :
    lstrip (c :: l) = c :: l := by
  unfold lstrip
  rw [List.dropWhile_cons, hc]
  simp

/-- `FUNCTION_STYLE_REGEX[0]` needs whitespace after `function`: it
cannot match inside a whitespace-free string. -/
theorem style0MatchAt_no_space (p : Bool) (s : Line)
    (h : ∀ c ∈ s, isSpaceChar c = false) : style0MatchAt p s = none := by
  cases p
  · simp only [style0MatchAt]
    rw [if_neg (by decide)]
    by_cases hf : (lit "function").isPrefixOf s = true
    · rw [if_pos hf]
      rw [takeWhile_nil_of_all isSpaceChar (s.drop 8)
        (fun c hc => h c (List.mem_of_mem_drop hc))]
      simp
    · rw [if_neg hf]
  · rfl

/-- `FUNCTION_STYLE_REGEX[1]` needs whitespace after `function`: it
cannot match inside a whitespace-free string. -/
theorem style1MatchAt_no_space (p : Bool) (s : Line)
    (h : ∀ c ∈ s, isSpaceChar c = false) : style1MatchAt p s = none := by
  cases p
  · simp only [style1MatchAt]
    rw [if_neg (by decide)]
    by_cases hf : (lit "function").isPrefixOf s = true
    · rw [if_pos hf]
      rw [takeWhile_nil_of_all isSpaceChar (s.drop 8)
        (fun c hc => h c (List.mem_of_mem_drop hc))]
      simp
    · rw [if_neg hf]
  · rfl

/-- `FUNCTION_STYLE_REGEX[0]` needs an opening parenthesis: it cannot
match inside a parenthesis-free string. -/
theorem style0MatchAt_no_paren (p : Bool) (s : Line)
    (h : '(' ∉ s) : style0MatchAt p s = none := by
  cases p
  · simp only [style0MatchAt]
    rw [if_neg (by decide)]
    by_cases hf : (lit "function").isPrefixOf s = true
    · rw [if_pos hf]
      split
      · rfl
      · split
        · rename_i r5 heq
          exfalso
          apply h
          have hm : '(' ∈ ('(' : Char) :: r5 := List.mem_cons_self _ _
          rw [← heq] at hm
          exact List.mem_of_mem_drop (List.mem_of_mem_drop
            (List.mem_of_mem_drop (List.mem_of_mem_drop hm)))
        · rfl
    · rw [if_neg hf]
  · rfl

/-- The search for `FUNCTION_STYLE_REGEX[0]` fails on whitespace-free
strings. -/
theorem searchStyleGo0_no_space : ∀ (s : Line) (p : Bool),
    (∀ c ∈ s, isSpaceChar c = false) → searchStyleGo 0 s p = false
  | [], p, h => by
    rw [searchStyleGo, styleMatchAt, style0MatchAt_no_space p [] h]
    rfl
  | c :: rest, p, h => by
    rw [searchStyleGo, styleMatchAt, style0MatchAt_no_space p (c :: rest) h,
      searchStyleGo0_no_space rest (isWordChar c)
        (fun d hd => h d (List.mem_cons_of_mem c hd))]
    rfl

/-- The search for `FUNCTION_STYLE_REGEX[1]` fails on whitespace-free
strings. -/
theorem searchStyleGo1_no_space : ∀ (s : Line) (p : Bool),
    (∀ c ∈ s, isSpaceChar c = false) → searchStyleGo 1 s p = false
  | [], p, h => by
    rw [searchStyleGo, styleMatchAt, style1MatchAt_no_space p [] h]
    rfl
  | c :: rest, p, h => by
    rw [searchStyleGo, styleMatchAt, style1MatchAt_no_space p (c :: rest) h,
      searchStyleGo1_no_space rest (isWordChar c)
        (fun d hd => h d (List.mem_cons_of_mem c hd))]
    rfl

/-- The search for `FUNCTION_STYLE_REGEX[0]` fails on parenthesis-free
strings. -/
theorem searchStyleGo0_no_paren : ∀ (s : Line) (p : Bool),
    '(' ∉ s → searchStyleGo 0 s p = false
  | [], p, h => by
    rw [searchStyleGo, styleMatchAt, style0MatchAt_no_paren p [] h]
    rfl
  | c :: rest, p, h => by
    rw [searchStyleGo, styleMatchAt, style0MatchAt_no_paren p (c :: rest) h,
      searchStyleGo0_no_paren rest (isWordChar c)
        (fun hd => h (List.mem_cons_of_mem c hd))]
    rfl

/-- `FUNCTION_STYLE_REGEX[2]` on `name()` captures exactly `name` and
consumes the whole string. -/
theorem style2MatchAt_name_parens (n0 : Char) (nt : Line)
    (hw : ∀ c ∈ n0 :: nt, isWordChar c = true) :
    style2MatchAt false (n0 :: (nt ++ lit "()")) = some (n0 :: nt, nt.length + 3) := by
  have hn0 : isWordChar n0 = true := hw n0 (List.mem_cons_self n0 nt)
  have hns0 : isSpaceChar n0 = false := word_not_space n0 hn0
  have htw : (nt ++ '(' :: [')']).takeWhile isWordChar = nt :=
    takeWhile_append_cons isWordChar nt '(' [')']
      (fun y hy => hw y (List.mem_cons_of_mem n0 hy)) (by decide)
  rw [show lit "()" = '(' :: [')'] from by decide]
  simp only [style2MatchAt, hn0, hns0, List.takeWhile_cons, Bool.false_eq_true,
    eq_self_iff_true, if_true, if_false, List.length_nil, List.drop_zero, htw,
    List.length_cons, List.drop_succ_cons, List.drop_left]
  simp only [show isSpaceChar '(' = false from by decide,
    show isSpaceChar ')' = false from by decide, Bool.false_eq_true, if_false,
    List.takeWhile_nil, List.length_nil, List.drop_zero]
  simp only [List.takeWhile_cons, show isSpaceChar ')' = false from by decide,
    Bool.false_eq_true, if_false, List.length_nil, List.drop_zero,
    List.takeWhile_nil]
  simp only [Option.some.injEq, Prod.mk.injEq]
  exact ⟨trivial, by omega⟩

/-- `FUNCTION_STYLE_REGEX[1]` on `function name` captures exactly `name`
and consumes the whole string. -/
theorem style1MatchAt_mid (n0 : Char) (nt : Line)
    (hw : ∀ c ∈ n0 :: nt, isWordChar c = true) :
    style1MatchAt false (lit "function " ++ (n0 :: nt)) =
      some (n0 :: nt, nt.length + 10) := by
  have hn0 : isWordChar n0 = true := hw n0 (List.mem_cons_self n0 nt)
  have hns0 : isSpaceChar n0 = false := word_not_space n0 hn0
  have htw : (n0 :: nt).takeWhile isWordChar = n0 :: nt :=
    takeWhile_all isWordChar (n0 :: nt) hw
  simp only [style1MatchAt]
  rw [if_neg (by decide)]
  rw [if_pos (show (lit "function").isPrefixOf (lit "function " ++ (n0 :: nt)) = true
    from rfl)]
  rw [show (lit "function " ++ (n0 :: nt)).drop 8 = ' ' :: (n0 :: nt) from rfl]
  simp only [List.takeWhile_cons, show isSpaceChar ' ' = true from by decide,
    eq_self_iff_true, if_true, hns0, Bool.false_eq_true, if_false,
    List.length_cons, List.length_nil, List.drop_succ_cons, List.drop_zero, htw]
  rw [List.drop_length, List.takeWhile_nil, if_neg (by omega)]
  simp only [Option.some.injEq, Prod.mk.injEq, List.length_nil]
  exact ⟨trivial, by omega⟩

/-- The search for `FUNCTION_STYLE_REGEX[2]` succeeds on `name()`. -/
theorem searchStyleGo2_s0 (n0 : Char) (nt : Line)
    (hw : ∀ c ∈ n0 :: nt, isWordChar c = true) :
    searchStyleGo 2 ((n0 :: nt) ++ lit "()") false = true := by
  show ((styleMatchAt 2 false (n0 :: (nt ++ lit "()"))).isSome ||
      searchStyleGo 2 (nt ++ lit "()") (isWordChar n0)) = true
  rw [show styleMatchAt 2 false (n0 :: (nt ++ lit "()")) =
      style2MatchAt false (n0 :: (nt ++ lit "()")) from rfl,
    style2MatchAt_name_parens n0 nt hw]
  rfl

/-- The search for `FUNCTION_STYLE_REGEX[1]` succeeds on
`function name`. -/
theorem searchStyleGo1_mid (n0 : Char) (nt : Line)
    (hw : ∀ c ∈ n0 :: nt, isWordChar c = true) :
    searchStyleGo 1 (lit "function " ++ (n0 :: nt)) false = true := by
  show ((styleMatchAt 1 false (lit "function " ++ (n0 :: nt))).isSome ||
      searchStyleGo 1 (lit "unction " ++ (n0 :: nt)) (isWordChar 'f')) = true
  rw [show styleMatchAt 1 false (lit "function " ++ (n0 :: nt)) =
      style1MatchAt false (lit "function " ++ (n0 :: nt)) from rfl,
    style1MatchAt_mid n0 nt hw]
  rfl

/-- `detect_function_style` classifies `name()` as the parens-only
style (index 2): the earlier regexes need whitespace. -/
theorem detect_name_parens (n0 : Char) (nt : Line)
    (hw : ∀ c ∈ n0 :: nt, isWordChar c = true) :
    detect_function_style ((n0 :: nt) ++ lit "()") = some 2 := by
  have hns : ∀ c ∈ (n0 :: nt) ++ lit "()", isSpaceChar c = false := by
    intro c hc
    rcases List.mem_append.mp hc with h | h
    · exact word_not_space c (hw c h)
    · rw [show lit "()" = ['(', ')'] from by decide] at h
      simp only [List.mem_cons, List.not_mem_nil, or_false] at h
      rcases h with rfl | rfl <;> decide
  unfold detect_function_style
  rw [searchStyleGo0_no_space _ false hns, searchStyleGo1_no_space _ false hns,
    searchStyleGo2_s0 n0 nt hw]
  rfl

/-- `detect_function_style` classifies `function name` as the
keyword-only style (index 1): index 0 needs parentheses. -/
theorem detect_mid (n0 : Char) (nt : Line)
    (hw : ∀ c ∈ n0 :: nt, isWordChar c = true) :
    detect_function_style (lit "function " ++ (n0 :: nt)) = some 1 := by
  have hnp : '(' ∉ lit "function " ++ (n0 :: nt) := by
    intro hc
    rcases List.mem_append.mp hc with h | h
    · revert h; decide
    · have hcw := hw '(' h
      revert hcw; decide
  unfold detect_function_style
  rw [searchStyleGo0_no_paren _ false hnp, searchStyleGo1_mid n0 nt hw]
  rfl

/-- One step of the substitution scan at a successful match: emit the
replacement and continue after the matched segment. -/
theorem subStyleGoF_step (det ap f : Nat) (c : Char) (rest : Line) (p : Bool)
    (name : Line) (n : Nat)
    (hm : styleMatchAt det p (c :: rest) = some (name, n + 1)) :
    subStyleGoF det ap (f + 1) (c :: rest) p =
      styleRepl ap name ++ subStyleGoF det ap f (rest.drop n)
        (match ((c :: rest).take (n + 1)).getLast? with
         | some d => isWordChar d
         | none => p) := by
  rw [subStyleGoF, hm]

/-- Substituting the keyword-only replacement into `name()` produces
`function name `. -/
theorem subStyle_s0 (n0 : Char) (nt : Line)
    (hw : ∀ c ∈ n0 :: nt, isWordChar c = true) :
    subStyleGo 2 1 ((n0 :: nt) ++ lit "()") false =
      lit "function " ++ (n0 :: nt) ++ lit " " := by
  have hm : styleMatchAt 2 false (n0 :: (nt ++ lit "()")) =
      some (n0 :: nt, (nt.length + 2) + 1) := style2MatchAt_name_parens n0 nt hw
  show subStyleGoF 2 1 ((n0 :: nt) ++ lit "()").length ((n0 :: nt) ++ lit "()") false = _
  rw [show ((n0 :: nt) ++ lit "()").length = (nt.length + 2) + 1 from by
    rw [List.length_append, List.length_cons, show (lit "()").length = 2 from rfl]]
  rw [List.cons_append]
  rw [subStyleGoF_step 2 1 (nt.length + 2) n0 (nt ++ lit "()") false (n0 :: nt)
    (nt.length + 2) hm]
  rw [show (nt ++ lit "()").drop (nt.length + 2) = [] from by
    rw [show nt.length + 2 = (nt ++ lit "()").length from by
      rw [List.length_append, show (lit "()").length = 2 from rfl]]
    exact List.drop_length _]
  rw [show nt.length + 2 = (nt.length + 1) + 1 from rfl, subStyleGoF,
    List.append_nil]
  rfl

/-- Stripping `function name ` removes exactly the trailing space. -/
theorem pystrip_function_name (n0 : Char) (nt : Line)
    (hw : ∀ c ∈ n0 :: nt, isWordChar c = true) :
    pystrip (lit "function " ++ (n0 :: nt) ++ lit " ") =
      lit "function " ++ (n0 :: nt) := by
  unfold pystrip
  rw [rstrip_append_space]
  rcases List.eq_nil_or_concat (n0 :: nt) with hnil | ⟨ys, c, hr⟩
  · cases hnil
  · rw [List.concat_eq_append] at hr
    have hcw : isWordChar c = true := hw c (by rw [hr]; simp)
    rw [hr, ← List.append_assoc,
      rstrip_append_singleton _ c (word_not_space c hcw), List.append_assoc, ← hr]
    show lstrip ('f' :: (lit "unction " ++ (n0 :: nt))) = lit "function " ++ (n0 :: nt)
    rw [lstrip_cons 'f' _ (by decide)]
    rfl

/-- Substituting the parens-only replacement into `function name`
produces `name() `. -/
theorem subStyle_mid (n0 : Char) (nt : Line)
    (hw : ∀ c ∈ n0 :: nt, isWordChar c = true) :
    subStyleGo 1 2 (lit "function " ++ (n0 :: nt)) false =
      (n0 :: nt) ++ lit "() " := by
  have hm : styleMatchAt 1 false ('f' :: (lit "unction " ++ (n0 :: nt))) =
      some (n0 :: nt, (nt.length + 9) + 1) := style1MatchAt_mid n0 nt hw
  show subStyleGoF 1 2 (lit "function " ++ (n0 :: nt)).length
      (lit "function " ++ (n0 :: nt)) false = _
  rw [show (lit "function " ++ (n0 :: nt)).length = (nt.length + 9) + 1 from by
    rw [List.length_append, List.length_cons, show (lit "function ").length = 9 from rfl]
    omega]
  rw [show lit "function " ++ (n0 :: nt) = 'f' :: (lit "unction " ++ (n0 :: nt))
    from rfl]
  rw [subStyleGoF_step 1 2 (nt.length + 9) 'f' (lit "unction " ++ (n0 :: nt)) false
    (n0 :: nt) (nt.length + 9) hm]
  rw [show (lit "unction " ++ (n0 :: nt)).drop (nt.length + 9) = [] from by
    rw [show nt.length + 9 = (lit "unction " ++ (n0 :: nt)).length from by
      rw [List.length_append, List.length_cons, show (lit "unction ").length = 8 from rfl]
      omega]
    exact List.drop_length _]
  rw [show nt.length + 9 = (nt.length + 8) + 1 from rfl, subStyleGoF,
    List.append_nil]
  rfl

/-- Stripping `name() ` removes exactly the trailing space. -/
theorem pystrip_name_parens (n0 : Char) (nt : Line)
    (hw : ∀ c ∈ n0 :: nt, isWordChar c = true) :
    pystrip ((n0 :: nt) ++ lit "() ") = (n0 :: nt) ++ lit "()" := by
  have hn0 : isWordChar n0 = true := hw n0 (List.mem_cons_self n0 nt)
  unfold pystrip
  rw [show lit "() " = lit "()" ++ lit " " from by decide, ← List.append_assoc,
    rstrip_append_space]
  rw [show lit "()" = ['('] ++ [')'] from by decide, ← List.append_assoc,
    rstrip_append_singleton _ ')' (by decide), List.append_assoc,
    ← show lit "()" = ['('] ++ [')'] from by decide]
  rw [List.cons_append]
  rw [lstrip_cons n0 _ (word_not_space n0 hn0)]

/-- Converting `name()` to keyword-only style yields `function name`. -/
theorem cfs_to_keyword (n0 : Char) (nt : Line)
    (hw : ∀ c ∈ n0 :: nt, isWordChar c = true) :
    change_function_style (some 1) ((n0 :: nt) ++ lit "()") (some 2) =
      lit "function " ++ (n0 :: nt) := by
  show pystrip (subStyleGo 2 1 ((n0 :: nt) ++ lit "()") false) = _
  rw [subStyle_s0 n0 nt hw, pystrip_function_name n0 nt hw]

/-- Converting `function name` to parens-only style yields `name()`. -/
theorem cfs_to_parens (n0 : Char) (nt : Line)
    (hw : ∀ c ∈ n0 :: nt, isWordChar c = true) :
    change_function_style (some 2) (lit "function " ++ (n0 :: nt)) (some 1) =
      (n0 :: nt) ++ lit "()" := by
  show pystrip (subStyleGo 1 2 (lit "function " ++ (n0 :: nt)) false) = _
  rw [subStyle_mid n0 nt hw, pystrip_name_parens n0 nt hw]

/-- C8 (confirmed): for a parens-only declaration `name()` with a
nonempty word-character name, `detect_function_style` classifies the
line as style 2 (parens-only); converting it to keyword-only style via
`change_function_style` gives `function name`, which is then detected as
style 1 (keyword-only); converting that back to parens-only style
restores exactly the original `name()`. -/
theorem claim_C8_roundtrip (name : Line) (hne : name ≠ [])
    (hw : ∀ c ∈ name, isWordChar c = true) :
    detect_function_style (name ++ lit "()") = some 2 ∧
    change_function_style (some 1) (name ++ lit "()")
        (detect_function_style (name ++ lit "()")) = lit "function " ++ name ∧
    detect_function_style (lit "function " ++ name) = some 1 ∧
    change_function_style (some 2) (lit "function " ++ name)
        (detect_function_style (lit "function " ++ name)) = name ++ lit "()" := by
  obtain ⟨n0, nt, rfl⟩ : ∃ n0 nt, name = n0 :: nt := by
    cases name with
    | nil => exact absurd rfl hne
    | cons a b => exact ⟨a, b, rfl⟩
  refine ⟨detect_name_parens n0 nt hw, ?_, detect_mid n0 nt hw, ?_⟩
  · rw [detect_name_parens n0 nt hw]
    exact cfs_to_keyword n0 nt hw
  · rw [detect_mid n0 nt hw]
    exact cfs_to_parens n0 nt hw

theorem claim_C8_roundtrip_witness :
    (lit "foo" ≠ [] ∧ ∀ c ∈ lit "foo", isWordChar c = true) ∧
    (detect_function_style (lit "foo" ++ lit "()") = some 2 ∧
     change_function_style (some 1) (lit "foo" ++ lit "()")
         (detect_function_style (lit "foo" ++ lit "()")) =
       lit "function " ++ lit "foo" ∧
     detect_function_style (lit "function " ++ lit "foo") = some 1 ∧
     change_function_style (some 2) (lit "function " ++ lit "foo")
         (detect_function_style (lit "function " ++ lit "foo")) =
       lit "foo" ++ lit "()") :=
  ⟨⟨by decide, by decide⟩, claim_C8_roundtrip (lit "foo") (by decide) (by decide)⟩

/-! ### Scanner no-op lemmas for simple structural lines (C1, C2) -/

/-- `str.replace` is the identity when the pattern head never occurs. -/
theorem pyReplaceF_no_occ (a : Char) (k new : Line) : ∀ (f : Nat) (s : Line),
    a ∉ s → pyReplaceF (a :: k) new f s = s
  | 0, s, _ => rfl
  | _ + 1, [], _ => rfl
  | f + 1, c :: rest, h => by
    rw [pyReplaceF]
    have hpre : (a :: k).isPrefixOf (c :: rest) = false := by
      cases hp : (a :: k).isPrefixOf (c :: rest)
      · rfl
      · exfalso
        have hb : (a == c && k.isPrefixOf rest) = true := hp
        have hac : a = c := eq_of_beq (Bool.and_eq_true .. |>.mp hb).1
        exact h (by rw [hac]; exact List.mem_cons_self c rest)
    rw [hpre]
    simp only [Bool.false_eq_true, if_false]
    rw [pyReplaceF_no_occ a k new f rest (fun hm => h (List.mem_cons_of_mem c hm))]

/-- `str.replace` wrapper no-op. -/
theorem pyReplace_no_occ (s : Line) (a : Char) (k new : Line) (h : a ∉ s) :
    pyReplace s (a :: k) new = s := by
  rw [pyReplace, if_neg (by simp)]
  exact pyReplaceF_no_occ a k new s.length s h

/-- Quote collapsing is the identity on quote-free strings. -/
theorem collapseQuotedF_no_q (q : Char) : ∀ (f : Nat) (s : Line),
    q ∉ s → collapseQuotedF q f s = s
  | 0, s, _ => rfl
  | _ + 1, [], _ => rfl
  | f + 1, c :: rest, h => by
    rw [collapseQuotedF]
    have hc : (c = q) = False :=
      eq_false (fun he => h (by rw [← he]; exact List.mem_cons_self c rest))
    simp only [hc, if_false]
    rw [collapseQuotedF_no_q q f rest (fun hm => h (List.mem_cons_of_mem c hm))]

theorem collapseQuoted_no_q (q : Char) (s : Line) (h : q ∉ s) :
    collapseQuoted q s = s := collapseQuotedF_no_q q s.length s h

/-- The backslash-backtick collapse is the identity on backslash-free
strings. -/
theorem collapseBacktickTickF_no_bs : ∀ (f : Nat) (s : Line),
    '\\' ∉ s → collapseBacktickTickF f s = s
  | 0, s, _ => rfl
  | _ + 1, [], _ => rfl
  | f + 1, c :: rest, h => by
    have hc : ¬(c = '\\') :=
      fun he => h (by rw [← he]; exact List.mem_cons_self c rest)
    rw [collapseBacktickTickF.eq_def]
    split
    · rfl
    · rename_i hfu hnil
      exact absurd hnil (by simp)
    · rename_i x1 x2 cw ch tl hfu hcons
      injection hcons with h1 h2
      subst h1
      subst h2
      have hcw : cw = f := by omega
      rw [hcw, if_neg hc]
      rw [collapseBacktickTickF_no_bs f rest (fun hm => h (List.mem_cons_of_mem c hm))]

theorem collapseBacktickTick_no_bs (s : Line) (h : '\\' ∉ s) :
    collapseBacktickTick s = s := collapseBacktickTickF_no_bs s.length s h

/-- Escape stripping is the identity on backslash-free strings. -/
theorem stripEscapedChars_no_bs : ∀ (s : Line), '\\' ∉ s → stripEscapedChars s = s
  | [], _ => rfl
  | c :: rest, h => by
    have hc : ¬(c = '\\') :=
      fun he => h (by rw [← he]; exact List.mem_cons_self c rest)
    rw [stripEscapedChars.eq_def]
    split
    · rename_i heq
      exact absurd heq (by simp)
    · rename_i heq
      injection heq with h1 h2
      exact absurd h1 hc
    · rename_i hd tl heq
      injection heq with h1 h2
      exact absurd h1 hc
    · rename_i heq
      injection heq with h1 h2
      subst h1
      subst h2
      rw [stripEscapedChars_no_bs rest (fun hm => h (List.mem_cons_of_mem c hm))]

theorem dropWhile_dropWhile_self (p : Char → Bool) (x : Line) :
    (x.dropWhile p).dropWhile p = x.dropWhile p := by
  induction x with
  | nil => rfl
  | cons c rest ih =>
    by_cases h : p c
    · simp [List.dropWhile_cons, h, ih]
    · simp [List.dropWhile_cons, h]

theorem dropWhile_head_not (p : Char → Bool) (x : Line) (c : Char) (t : Line)
    (h : x.dropWhile p = c :: t) : p c = false := by
  induction x with
  | nil => cases h
  | cons a rest ih =>
    by_cases ha : p a
    · rw [List.dropWhile_cons, if_pos ha] at h
      exact ih h
    · rw [List.dropWhile_cons, if_neg ha] at h
      cases h
      cases hpc : p c
      · rfl
      · exact absurd hpc (by simpa using ha)

theorem blank_rstrip_nil (l : Line) (h : (pystrip (rstrip l)).isEmpty = true) :
    rstrip l = [] := by
  unfold pystrip rstrip lstrip at *
  rw [List.isEmpty_iff] at h
  rcases hy : l.reverse.dropWhile isSpaceChar with _ | ⟨c, t⟩
  · simp [hy]
  · exfalso
    rw [hy] at h
    rw [List.reverse_reverse] at h
    have h2 : (c :: t).dropWhile isSpaceChar = c :: t := by
      rw [← hy]
      exact dropWhile_dropWhile_self _ _
    rw [h2] at h
    have hws : ∀ d ∈ (c :: t).reverse, isSpaceChar d = true := by
      have := List.dropWhile_eq_nil_iff.mp h
      intro d hd
      exact this d hd
    have hc : isSpaceChar c = true := hws c (by simp)
    have hcn : isSpaceChar c = false := dropWhile_head_not _ _ _ _ hy
    rw [hc] at hcn
    cases hcn

/-- Comment-scanning is the identity on hash-free strings. -/
theorem stripCommentAux_no_hash : ∀ (s : Line), '#' ∉ s → stripCommentAux s = s
  | [], _ => rfl
  | c :: rest, h => by
    have hrec := stripCommentAux_no_hash rest (fun hm => h (List.mem_cons_of_mem c hm))
    rw [stripCommentAux]
    · rw [hrec]
      split <;> rfl
    · intro tail htail
      exact h (List.mem_cons_of_mem c
        (by rw [htail]; exact List.mem_cons_self '#' tail))

/-- Comment removal is the identity on hash-free strings. -/
theorem stripComment_no_hash (s : Line) (h : '#' ∉ s) : stripComment s = s := by
  rw [stripComment.eq_def]
  split
  · rename_i tail
    exact absurd (List.mem_cons_self '#' tail) h
  · exact stripCommentAux_no_hash s h

/-- `get_test_record` is the identity on lines free of quoting, escape
and comment characters. -/
theorem get_test_record_plain (s : Line)
    (h : ∀ c ∈ s, specialChar c = false) : get_test_record s = s := by
  have hq1 : '\x27' ∉ s := fun hm => by have hx := h _ hm; revert hx; decide
  have hq2 : '\x22' ∉ s := fun hm => by have hx := h _ hm; revert hx; decide
  have hbt : '\x60' ∉ s := fun hm => by have hx := h _ hm; revert hx; decide
  have hbs : '\\' ∉ s := fun hm => by have hx := h _ hm; revert hx; decide
  have hh : '#' ∉ s := fun hm => by have hx := h _ hm; revert hx; decide
  simp only [get_test_record]
  rw [pyReplace_no_occ s '\\' _ _ hbs, pyReplace_no_occ s '\\' _ _ hbs,
    collapseQuoted_no_q _ s hq1, collapseQuoted_no_q _ s hq2,
    collapseQuoted_no_q _ s hbt, collapseBacktickTick_no_bs s hbs,
    stripEscapedChars_no_bs s hbs, stripComment_no_hash s hh]

/-- The last element of a list is a member. -/
theorem mem_of_getLast_opt : ∀ (l : Line) (c : Char), l.getLast? = some c → c ∈ l
  | [], _, h => by cases h
  | [a], c, h => by
    rw [List.getLast?_singleton] at h
    injection h with h1
    rw [← h1]
    exact List.mem_cons_self a []
  | a :: b :: t, c, h => by
    rw [List.getLast?_cons_cons] at h
    exact List.mem_cons_of_mem a (mem_of_getLast_opt (b :: t) c h)

/-- A backslash-free line does not end in a backslash. -/
theorem endsWithBackslash_no_bs (s : Line) (h : '\\' ∉ s) :
    endsWithBackslash s = false := by
  unfold endsWithBackslash
  cases hE : s.getLast? with
  | none => rfl
  | some c =>
    have hcm : c ∈ s := mem_of_getLast_opt s c hE
    have hc : ¬(c = '\\') := fun he => h (by rw [← he]; exact hcm)
    simp [hc]

/-- The formatter-marker search fails on hash-free lines. -/
theorem fmtMarker_no_hash (w : Line) : ∀ (s : Line), '#' ∉ s → fmtMarker w s = false
  | [], _ => rfl
  | c :: rest, h => by
    rw [fmtMarker]
    have hc : (c = '#') = False :=
      eq_false (fun he => h (by rw [← he]; exact List.mem_cons_self c rest))
    simp only [hc, decide_False, Bool.false_and, Bool.false_or]
    exact fmtMarker_no_hash w rest (fun hm => h (List.mem_cons_of_mem c hm))

/-- The whitespace-then-quote scan fails on quote-free lines. -/
theorem quoteScan_no_quotes : ∀ (t : Line),
    (∀ c ∈ t, (c = '\x27' || c = '\x22') = false) → quoteScan t = false
  | [], _ => rfl
  | [c], _ => rfl
  | c :: d :: rest, h => by
    rw [quoteScan]
    rw [h d (List.mem_cons_of_mem c (List.mem_cons_self d rest))]
    simp only [Bool.and_false, Bool.false_or]
    exact quoteScan_no_quotes (d :: rest) (fun x hx => h x (List.mem_cons_of_mem c hx))

/-- The external-quote opener search fails on quote-free lines. -/
theorem quoteAfterWsOrStart_no_quotes (t : Line)
    (h : ∀ c ∈ t, (c = '\x27' || c = '\x22') = false) :
    quoteAfterWsOrStart t = false := by
  unfold quoteAfterWsOrStart
  rw [quoteScan_no_quotes t h, Bool.or_false]
  cases t with
  | nil => rfl
  | cons c rest => exact h c (List.mem_cons_self c rest)

/-- Substring search fails when the pattern head never occurs. -/
theorem containsSub_head_not_mem (a : Char) (k : Line) : ∀ (s : Line),
    a ∉ s → containsSub (a :: k) s = false
  | [], _ => rfl
  | c :: rest, h => by
    rw [containsSub]
    have hpre : (a :: k).isPrefixOf (c :: rest) = false := by
      cases hp : (a :: k).isPrefixOf (c :: rest)
      · rfl
      · exfalso
        have hb : (a == c && k.isPrefixOf rest) = true := hp
        have hac : a = c := eq_of_beq (Bool.and_eq_true .. |>.mp hb).1
        exact h (by rw [hac]; exact List.mem_cons_self c rest)
    rw [hpre, Bool.false_or]
    exact containsSub_head_not_mem a k rest (fun hm => h (List.mem_cons_of_mem c hm))

/-- `rstrip` is idempotent. -/
theorem rstrip_idem (l : Line) : rstrip (rstrip l) = rstrip l := by
  unfold rstrip
  rw [List.reverse_reverse, dropWhile_dropWhile_self]

/-- Stripping after `rstrip` is plain stripping. -/
theorem pystrip_rstrip (l : Line) : pystrip (rstrip l) = pystrip l := by
  unfold pystrip
  rw [rstrip_idem]

/-- The two-character pattern `...` in cons form. -/
theorem lit_angle2 : lit "<<" = '<' :: ['<'] := by decide

/-- A simple structural line is nonblank. -/
theorem plainLine_nonblank (l : Line) (hp : plainLine l = true) :
    (pystrip l).isEmpty = false := by
  simp only [plainLine, Bool.and_eq_true] at hp
  have hx := hp.1.1.1.1.1
  rwa [Bool.not_eq_true'] at hx

/-- `splitOnChar` always returns at least one piece. -/
theorem splitOnChar_cons_shape (sep : Char) : ∀ (s : Line),
    ∃ h t, splitOnChar sep s = h :: t
  | [] => ⟨[], [], rfl⟩
  | c :: rest => by
    obtain ⟨h, t, hr⟩ := splitOnChar_cons_shape sep rest
    simp only [splitOnChar]
    rw [hr]
    by_cases hc : c = sep
    · rw [if_pos hc]
      exact ⟨[], h :: t, rfl⟩
    · rw [if_neg hc]
      exact ⟨c :: h, t, rfl⟩

/-- A separator-free string splits into itself. -/
theorem splitOnChar_no_sep (sep : Char) : ∀ (s : Line), sep ∉ s →
    splitOnChar sep s = [s]
  | [], _ => rfl
  | c :: rest, h => by
    have hc : ¬(c = sep) :=
      fun he => h (by rw [← he]; exact List.mem_cons_self c rest)
    simp only [splitOnChar]
    rw [splitOnChar_no_sep sep rest (fun hm => h (List.mem_cons_of_mem c hm)),
      if_neg hc]

/-- Splitting peels off a separator-free head piece. -/
theorem splitOnChar_append (sep : Char) : ∀ (o : Line) (rest : Line), sep ∉ o →
    splitOnChar sep (o ++ sep :: rest) = o :: splitOnChar sep rest
  | [], rest, _ => by
    rw [List.nil_append]
    simp only [splitOnChar]
    rw [if_pos trivial]
  | c :: o2, rest, h => by
    have hc : ¬(c = sep) :=
      fun he => h (by rw [← he]; exact List.mem_cons_self c o2)
    rw [List.cons_append]
    simp only [splitOnChar]
    rw [splitOnChar_append sep o2 rest (fun hm => h (List.mem_cons_of_mem c hm)),
      if_neg hc]

theorem joinNl_cons_cons (l l2 : Line) (ls : List Line) :
    joinNl (l :: l2 :: ls) = l ++ '\n' :: joinNl (l2 :: ls) := rfl

/-- Splitting inverts joining for newline-free pieces. -/
theorem splitOnChar_joinNl : ∀ (outs : List Line),
    outs ≠ [] → (∀ o ∈ outs, '\n' ∉ o) →
    splitOnChar '\n' (joinNl outs) = outs
  | [], h, _ => absurd rfl h
  | [o], _, hn => by
    rw [show joinNl [o] = o from rfl]
    exact splitOnChar_no_sep '\n' o (hn o (List.mem_cons_self o []))
  | o :: o2 :: os, _, hn => by
    rw [joinNl_cons_cons,
      splitOnChar_append '\n' o _ (hn o (List.mem_cons_self _ _)),
      splitOnChar_joinNl (o2 :: os) (by simp)
        (fun x hx => hn x (List.mem_cons_of_mem o hx))]

/-- Pieces of a split never contain the separator. -/
theorem splitOnChar_pieces_no_sep (sep : Char) : ∀ (s : Line) (p : Line),
    p ∈ splitOnChar sep s → sep ∉ p
  | [], p, hp => by
    simp only [splitOnChar, List.mem_cons, List.not_mem_nil, or_false] at hp
    rw [hp]
    exact List.not_mem_nil sep
  | c :: rest, p, hp => by
    obtain ⟨h, t, hr⟩ := splitOnChar_cons_shape sep rest
    simp only [splitOnChar] at hp
    rw [hr] at hp
    by_cases hc : c = sep
    · rw [if_pos hc] at hp
      rcases List.mem_cons.mp hp with he | hm
      · rw [he]; exact List.not_mem_nil sep
      · exact splitOnChar_pieces_no_sep sep rest p (by rw [hr]; exact hm)
    · rw [if_neg hc] at hp
      rcases List.mem_cons.mp hp with he | hm
      · rw [he]
        intro hmem
        rcases List.mem_cons.mp hmem with he2 | hm2
        · exact hc he2.symm
        · exact splitOnChar_pieces_no_sep sep rest h
            (by rw [hr]; exact List.mem_cons_self h t) hm2
      · exact splitOnChar_pieces_no_sep sep rest p
          (by rw [hr]; exact List.mem_cons_of_mem h hm)

/-- Members of a `dropWhile` are members of the list. -/
theorem mem_of_dropWhile_mem (p : Char → Bool) : ∀ (l : Line) (x : Char),
    x ∈ l.dropWhile p → x ∈ l
  | [], x, h => h
  | c :: t, x, h => by
    rw [List.dropWhile_cons] at h
    by_cases hc : p c = true
    · rw [if_pos hc] at h
      exact List.mem_cons_of_mem c (mem_of_dropWhile_mem p t x h)
    · rw [if_neg hc] at h
      exact h

/-- Members of `rstrip` are members of the line. -/
theorem mem_of_rstrip_mem (l : Line) (x : Char) (h : x ∈ rstrip l) : x ∈ l := by
  unfold rstrip at h
  rw [List.mem_reverse] at h
  have := mem_of_dropWhile_mem isSpaceChar l.reverse x h
  rwa [List.mem_reverse] at this

/-- Members of `pystrip` are members of the line. -/
theorem mem_of_pystrip_mem (l : Line) (x : Char) (h : x ∈ pystrip l) : x ∈ l := by
  unfold pystrip lstrip at h
  exact mem_of_rstrip_mem l x (mem_of_dropWhile_mem isSpaceChar (rstrip l) x h)

/-- `dropWhile` keeps the last element when the result is nonempty. -/
theorem getLast_opt_dropWhile (p : Char → Bool) : ∀ (r : Line),
    r.dropWhile p ≠ [] → (r.dropWhile p).getLast? = r.getLast?
  | [], h => rfl
  | c :: t, h => by
    rw [List.dropWhile_cons]
    rw [List.dropWhile_cons] at h
    by_cases hc : p c = true
    · rw [if_pos hc] at h ⊢
      cases t with
      | nil => exact absurd rfl h
      | cons d t2 =>
        rw [getLast_opt_dropWhile p (d :: t2) h, List.getLast?_cons_cons]
    · rw [if_neg hc]

/-- The last character of a nonempty `rstrip` is not whitespace. -/
theorem rstrip_last_nonspace (l : Line) (c : Char)
    (hL : (rstrip l).getLast? = some c) : isSpaceChar c = false := by
  unfold rstrip at hL
  rw [List.getLast?_reverse] at hL
  cases hx : l.reverse.dropWhile isSpaceChar with
  | nil => rw [hx] at hL; cases hL
  | cons d t =>
    rw [hx] at hL
    rw [List.head?_cons] at hL
    injection hL with h1
    rw [← h1]
    exact dropWhile_head_not isSpaceChar l.reverse d t hx

/-- A line ending in a non-whitespace character is its own `rstrip`. -/
theorem rstrip_eq_self_of_last (y : Line) (c : Char)
    (hL : y.getLast? = some c) (hc : isSpaceChar c = false) : rstrip y = y := by
  rcases List.eq_nil_or_concat y with hnil | ⟨ys, c2, hy⟩
  · rw [hnil] at hL; cases hL
  · rw [List.concat_eq_append] at hy
    have hc2 : c2 = c := by
      rw [hy, List.getLast?_concat] at hL
      injection hL with h1
    rw [hy, rstrip_append_singleton ys c2 (by rw [hc2]; exact hc)]

/-- `pystrip` output is `rstrip`-stable. -/
theorem rstrip_pystrip (l : Line) : rstrip (pystrip l) = pystrip l := by
  cases hx : (pystrip l).isEmpty
  · have hne : pystrip l ≠ [] := by
      intro he
      rw [he] at hx
      cases hx
    cases hL : (pystrip l).getLast? with
    | none =>
      exact absurd (List.getLast?_eq_none_iff.mp hL) hne
    | some c =>
      have hL2 : (rstrip l).getLast? = some c := by
        rw [← hL]
        unfold pystrip lstrip
        exact (getLast_opt_dropWhile isSpaceChar (rstrip l)
          (by unfold pystrip lstrip at hne; exact hne)).symm
      exact rstrip_eq_self_of_last (pystrip l) c hL (rstrip_last_nonspace l c hL2)
  · rw [List.isEmpty_iff.mp hx]
    rfl

/-- `pystrip` output is `lstrip`-stable. -/
theorem lstrip_pystrip (l : Line) : lstrip (pystrip l) = pystrip l := by
  unfold pystrip lstrip
  exact dropWhile_dropWhile_self isSpaceChar (rstrip l)

/-- `lstrip` removes a leading run of a whitespace character. -/
theorem lstrip_replicate (k : Nat) (w : Char) (x : Line) (hw : isSpaceChar w = true) :
    lstrip (List.replicate k w ++ x) = lstrip x := by
  induction k with
  | zero => rfl
  | succ n ih =>
    rw [List.replicate_succ, List.cons_append]
    unfold lstrip at ih ⊢
    rw [List.dropWhile_cons, if_pos hw]
    exact ih

/-- Stripping an indented stripped line recovers the stripped line. -/
theorem pystrip_out (k : Nat) (w : Char) (l : Line) (hw : isSpaceChar w = true)
    (hne : (pystrip l).isEmpty = false) :
    pystrip (List.replicate k w ++ pystrip l) = pystrip l := by
  have hne' : pystrip l ≠ [] := by
    intro he
    rw [he] at hne
    cases hne
  cases hL : (pystrip l).getLast? with
  | none => exact absurd (List.getLast?_eq_none_iff.mp hL) hne'
  | some c =>
    have hcs : isSpaceChar c = false := by
      have hrs := rstrip_pystrip l
      have : (rstrip (pystrip l)).getLast? = some c := by rw [hrs]; exact hL
      exact rstrip_last_nonspace (pystrip l) c this
    have hrout : rstrip (List.replicate k w ++ pystrip l) =
        List.replicate k w ++ pystrip l := by
      apply rstrip_eq_self_of_last _ c _ hcs
      rw [List.getLast?_append]
      rw [hL]
      rfl
    show lstrip (rstrip (List.replicate k w ++ pystrip l)) = pystrip l
    rw [hrout, lstrip_replicate k w (pystrip l) hw, lstrip_pystrip]

/-- With no target style the style rewrite is the identity. -/
theorem change_function_style_none (s : Line) (d : Option Nat) :
    change_function_style none s d = s := by
  unfold change_function_style
  cases d <;> rfl

/-- `any` over a constant run of a non-matching character is false. -/
theorem replicate_any_false (k : Nat) (w : Char) (p : Char → Bool) (h : p w = false) :
    (List.replicate k w).any p = false := by
  induction k with
  | zero => rfl
  | succ n ih =>
    rw [List.replicate_succ, List.any_cons, h, ih]
    rfl

/-- `any` is monotone under list inclusion (contrapositive form). -/
theorem any_false_sub (p : Char → Bool) (a b : Line)
    (hsub : ∀ x, x ∈ a → x ∈ b) (h : b.any p = false) : a.any p = false := by
  cases hx : a.any p
  · rfl
  · exfalso
    obtain ⟨x, hm, hpx⟩ := List.any_eq_true.mp hx
    have hb : b.any p = true := List.any_eq_true.mpr ⟨x, hsub x hm, hpx⟩
    rw [h] at hb
    cases hb

/-- Members of `pystrip` are members of `rstrip`. -/
theorem mem_pystrip_sub_rstrip (l : Line) (x : Char) (h : x ∈ pystrip l) :
    x ∈ rstrip l := by
  unfold pystrip lstrip at h
  exact mem_of_dropWhile_mem isSpaceChar (rstrip l) x h

/-- A nonempty `pystrip` ends in the same character as `rstrip`. -/
theorem getLast_opt_pystrip (l : Line) (hne : pystrip l ≠ []) :
    (pystrip l).getLast? = (rstrip l).getLast? := by
  unfold pystrip lstrip at hne ⊢
  exact getLast_opt_dropWhile isSpaceChar (rstrip l) hne

/-- An indented stripped line is `rstrip`-stable. -/
theorem rstrip_out (k : Nat) (w : Char) (l : Line)
    (hne : (pystrip l).isEmpty = false) :
    rstrip (List.replicate k w ++ pystrip l) = List.replicate k w ++ pystrip l := by
  have hne' : pystrip l ≠ [] := by
    intro he
    rw [he] at hne
    cases hne
  cases hL : (pystrip l).getLast? with
  | none => exact absurd (List.getLast?_eq_none_iff.mp hL) hne'
  | some c =>
    have hcs : isSpaceChar c = false := by
      have hrs := rstrip_pystrip l
      have hh : (rstrip (pystrip l)).getLast? = some c := by rw [hrs]; exact hL
      exact rstrip_last_nonspace (pystrip l) c hh
    apply rstrip_eq_self_of_last _ c _ hcs
    rw [List.getLast?_append, hL]
    rfl

/-- An indented simple structural line is again a simple structural
line. -/
theorem plainLine_out (k : Nat) (w : Char) (l : Line)
    (hw : isSpaceChar w = true) (hwa : ¬(w = '&'))
    (hp : plainLine l = true) :
    plainLine (List.replicate k w ++ pystrip l) = true := by
  have hA := plainLine_nonblank l hp
  have hne' : pystrip l ≠ [] := by
    intro he
    rw [he] at hA
    cases hA
  have hps := pystrip_out k w l hw hA
  have hrs := rstrip_out k w l hA
  simp only [plainLine, Bool.and_eq_true] at hp
  obtain ⟨⟨⟨⟨⟨h1, h2⟩, h3⟩, h4⟩, h5⟩, h6⟩ := hp
  simp only [plainLine, Bool.and_eq_true]
  rw [hps, hrs]
  refine ⟨⟨⟨⟨⟨h1, h2⟩, ?_⟩, ?_⟩, h5⟩, h6⟩
  · rw [Bool.not_eq_true', List.any_append,
      replicate_any_false k w _ (decide_eq_false hwa), Bool.false_or]
    rw [Bool.not_eq_true'] at h3
    exact any_false_sub _ (pystrip l) (rstrip l) (mem_pystrip_sub_rstrip l) h3
  · cases hc : (rstrip l).getLast? with
    | none =>
      exfalso
      apply hne'
      have : rstrip l = [] := List.getLast?_eq_none_iff.mp hc
      unfold pystrip
      rw [this]
      rfl
    | some c =>
      have hLs : (pystrip l).getLast? = some c := by
        rw [getLast_opt_pystrip l hne', hc]
      rw [List.getLast?_append, hLs]
      rw [hc] at h4
      exact h4

/-- The empty line is blank. -/
theorem pystrip_nil_empty : (pystrip ([] : Line)).isEmpty = true := rfl

/-! ### `str.replace` distribution over lines (C10) -/

/-- The replace scanner is fuel-insensitive once the fuel covers the
string. -/
theorem pyReplaceF_fuel (old new : Line) (hold : old ≠ []) : ∀ (f : Nat) (s : Line),
    s.length ≤ f → pyReplaceF old new f s = pyReplaceF old new s.length s := by
  intro f
  induction f using Nat.strong_induction_on with
  | _ f ih =>
    intro s hs
    match f, s with
    | 0, s =>
      have hn : s = [] := List.length_eq_zero.mp (Nat.le_zero.mp hs)
      rw [hn]
      rfl
    | f + 1, [] => rfl
    | f + 1, c :: rest =>
      rw [List.length_cons] at hs ⊢
      rw [pyReplaceF, pyReplaceF]
      have hrl : rest.length ≤ f := by omega
      by_cases hp : old.isPrefixOf (c :: rest) = true
      · rw [if_pos hp, if_pos hp]
        have hdrop : ((c :: rest).drop old.length).length ≤ rest.length := by
          rw [List.length_drop, List.length_cons]
          cases old with
          | nil => exact absurd rfl hold
          | cons o ot => rw [List.length_cons]; omega
        rw [ih f (by omega) _ (Nat.le_trans hdrop hrl),
          ih rest.length (by omega) _ hdrop]
      · rw [if_neg hp, if_neg hp, ih f (by omega) rest hrl]

/-- A successful match at the head replaces it. -/
theorem pyReplace_cons_hit (q q' : Line) (hq : q ≠ []) (c : Char) (rest : Line)
    (hp : q.isPrefixOf (c :: rest) = true) :
    pyReplace (c :: rest) q q' = q' ++ pyReplace ((c :: rest).drop q.length) q q' := by
  unfold pyReplace
  rw [if_neg hq, if_neg hq, List.length_cons, pyReplaceF, if_pos hp]
  congr 1
  have hdrop : ((c :: rest).drop q.length).length ≤ rest.length := by
    rw [List.length_drop, List.length_cons]
    cases q with
    | nil => exact absurd rfl hq
    | cons z q2 => rw [List.length_cons]; omega
  exact pyReplaceF_fuel q q' hq rest.length _ hdrop

/-- No match at the head: keep the character and scan on. -/
theorem pyReplace_cons_miss (q q' : Line) (hq : q ≠ []) (c : Char) (rest : Line)
    (hp : q.isPrefixOf (c :: rest) = false) :
    pyReplace (c :: rest) q q' = c :: pyReplace rest q q' := by
  unfold pyReplace
  rw [if_neg hq, if_neg hq, List.length_cons, pyReplaceF, hp]
  simp only [Bool.false_eq_true, if_false]

theorem pyReplace_nil (q q' : Line) (hq : q ≠ []) : pyReplace [] q q' = [] := by
  unfold pyReplace
  rw [if_neg hq]
  rfl

/-- `str.replace` is the identity when the pattern never occurs as a
substring. -/
theorem pyReplace_no_occ2 (q q' : Line) (hq : q ≠ []) : ∀ (s : Line),
    containsSub q s = false → pyReplace s q q' = s
  | [], _ => pyReplace_nil q q' hq
  | c :: rest, h => by
    rw [containsSub] at h
    have h1 : q.isPrefixOf (c :: rest) = false := by
      cases hx : q.isPrefixOf (c :: rest)
      · rfl
      · rw [hx] at h; simp at h
    have h2 : containsSub q rest = false := by
      rw [h1, Bool.false_or] at h
      exact h
    rw [pyReplace_cons_miss q q' hq c rest h1,
      pyReplace_no_occ2 q q' hq rest h2]

/-- A newline-free pattern is a prefix of `a ++ newline-tail` exactly
when it is a prefix of `a`. -/
theorem isPrefixOf_append_nl : ∀ (q : Line), '\n' ∉ q → ∀ (a b : Line),
    q.isPrefixOf (a ++ '\n' :: b) = q.isPrefixOf a
  | [], _, a, b => by cases a <;> rfl
  | x :: q2, hnl, [], b => by
    rw [List.nil_append]
    have hx : ¬(x = '\n') :=
      fun he => hnl (by rw [← he]; exact List.mem_cons_self x q2)
    show (x == '\n' && q2.isPrefixOf b) = (x :: q2).isPrefixOf []
    rw [beq_eq_false_iff_ne.mpr hx, Bool.false_and]
    rfl
  | x :: q2, hnl, c :: a2, b => by
    rw [List.cons_append]
    show (x == c && q2.isPrefixOf (a2 ++ '\n' :: b)) = (x == c && q2.isPrefixOf a2)
    rw [isPrefixOf_append_nl q2 (fun hm => hnl (List.mem_cons_of_mem x hm)) a2 b]

/-- Every list is a prefix of itself. -/
theorem isPrefixOf_self : ∀ (l : Line), l.isPrefixOf l = true
  | [] => rfl
  | c :: t => by
    show (c == c && t.isPrefixOf t) = true
    rw [isPrefixOf_self t, beq_self_eq_true]
    rfl

/-- Replacing a whole-pattern line yields the replacement. -/
theorem pyReplace_self (q q' : Line) (hq : q ≠ []) : pyReplace q q q' = q' := by
  cases hqs : q with
  | nil => exact absurd hqs hq
  | cons c rest =>
    rw [← hqs]
    rw [show pyReplace q q q' = pyReplace (c :: rest) q q' from by rw [hqs]]
    rw [pyReplace_cons_hit q q' hq c rest (by rw [hqs]; exact isPrefixOf_self _),
      show (c :: rest).drop q.length = [] from by
        rw [hqs]
        exact List.drop_length _,
      pyReplace_nil q q' hq, List.append_nil]

/-- With a newline-free pattern, `str.replace` acts line by line: no
occurrence can span the separator. -/
theorem pyReplace_append_nlF (q q' : Line) (hq : q ≠ []) (hnl : '\n' ∉ q) :
    ∀ (F : Nat) (a b : Line), a.length ≤ F →
    pyReplace (a ++ '\n' :: b) q q' = pyReplace a q q' ++ '\n' :: pyReplace b q q' := by
  intro F
  induction F using Nat.strong_induction_on with
  | _ F ih =>
    intro a b ha
    cases a with
    | nil =>
      rw [List.nil_append]
      have hp : q.isPrefixOf ('\n' :: b) = false := by
        have hh := isPrefixOf_append_nl q hnl [] b
        rw [List.nil_append] at hh
        rw [hh]
        cases q with
        | nil => exact absurd rfl hq
        | cons x q2 => rfl
      rw [pyReplace_cons_miss q q' hq '\n' b hp, pyReplace_nil q q' hq,
        List.nil_append]
    | cons c a2 =>
      have ha2F : a2.length + 1 ≤ F := by
        rw [List.length_cons] at ha
        exact ha
      have hql : 1 ≤ q.length := by
        cases q with
        | nil => exact absurd rfl hq
        | cons z q2 => rw [List.length_cons]; omega
      rw [List.cons_append]
      by_cases hp : q.isPrefixOf (c :: a2) = true
      · have hp2 : q.isPrefixOf (c :: (a2 ++ '\n' :: b)) = true := by
          have hh := isPrefixOf_append_nl q hnl (c :: a2) b
          rw [List.cons_append] at hh
          rw [hh]
          exact hp
        rw [pyReplace_cons_hit q q' hq c _ hp2,
          pyReplace_cons_hit q q' hq c a2 hp]
        have hlen : q.length ≤ (c :: a2).length :=
          List.IsPrefix.length_le (List.isPrefixOf_iff_prefix.mp hp)
        have hdropeq : (c :: (a2 ++ '\n' :: b)).drop q.length =
            ((c :: a2).drop q.length) ++ '\n' :: b := by
          rw [← List.cons_append, List.drop_append_of_le_length hlen]
        have hdl : ((c :: a2).drop q.length).length < F := by
          rw [List.length_drop, List.length_cons]
          omega
        rw [hdropeq, ih ((c :: a2).drop q.length).length hdl _ b (Nat.le_refl _),
          List.append_assoc]
      · have hp2 : q.isPrefixOf (c :: (a2 ++ '\n' :: b)) = false := by
          have hh := isPrefixOf_append_nl q hnl (c :: a2) b
          rw [List.cons_append] at hh
          rw [hh]
          cases hx : q.isPrefixOf (c :: a2)
          · rfl
          · exact absurd hx hp
        have hpx : q.isPrefixOf (c :: a2) = false := by
          cases hx : q.isPrefixOf (c :: a2)
          · rfl
          · exact absurd hx hp
        have ha2 : a2.length < F := by omega
        rw [pyReplace_cons_miss q q' hq c _ hp2,
          pyReplace_cons_miss q q' hq c a2 hpx,
          ih a2.length ha2 a2 b (Nat.le_refl _), List.cons_append]

theorem pyReplace_append_nl (q q' : Line) (hq : q ≠ []) (hnl : '\n' ∉ q)
    (a b : Line) :
    pyReplace (a ++ '\n' :: b) q q' = pyReplace a q q' ++ '\n' :: pyReplace b q q' :=
  pyReplace_append_nlF q q' hq hnl a.length a b (Nat.le_refl _)

/-- A qualifying line is reordered and substituted through the data. -/
theorem caoStep_qualify (d : Line) (diag : Nat) (l nl : Line)
    (hc : caoQualifies l = true) (hp : processArgLine l = some nl) :
    caoStep (some (d, diag)) l =
      some (pyReplace d l nl, if l ≠ nl then diag + 1 else diag) := by
  have hc' : (!containsSub (lit "[") l && !containsSub (lit "eval") l && argSearch l)
      = true := hc
  simp only [caoStep, hc', if_true, reduceIte, hp]

/-- A non-qualifying line leaves the accumulator unchanged. -/
theorem caoStep_skip (d : Line) (diag : Nat) (l : Line)
    (hc : caoQualifies l = false) :
    caoStep (some (d, diag)) l = some (d, diag) := by
  have hc' : (!containsSub (lit "[") l && !containsSub (lit "eval") l && argSearch l)
      = false := hc
  simp only [caoStep, hc', Bool.false_eq_true, if_false]

/-- C10 (corrected): `data.replace(line, new_line)` is substring-based
and global.  For a file `q\n n\n m\n q` where `q` is the unique
qualifying line (reordered to `nl`), `n` does not contain `q`, and `m`
is a non-qualifying line that may contain `q` as a substring: both
copies of `q` become `nl`, `n` is left unchanged, `m` has every embedded
occurrence of `q` rewritten (so a longer, non-identical line is NOT left
unchanged), and two diagnostics are recorded. -/
theorem claim_C10_amended (q nl n m : Line)
    (hq : caoQualifies q = true)
    (hn : caoQualifies n = false)
    (hm : caoQualifies m = false)
    (hproc : processArgLine q = some nl)
    (hne : q ≠ nl)
    (hqnil : q ≠ [])
    (hnlq : '\n' ∉ q) (hnln : '\n' ∉ n) (hnlm : '\n' ∉ m)
    (hnocc_n : containsSub q n = false)
    (hnocc_nl : containsSub q nl = false)
    (hnocc_m : containsSub q (pyReplace m q nl) = false) :
    change_argument_order (q ++ '\n' :: (n ++ '\n' :: (m ++ '\n' :: q))) =
      some (nl ++ '\n' :: (n ++ '\n' :: (pyReplace m q nl ++ '\n' :: nl)), 2) := by
  have hsplit : splitOnChar '\n' (q ++ '\n' :: (n ++ '\n' :: (m ++ '\n' :: q))) =
      [q, n, m, q] := by
    rw [splitOnChar_append '\n' q _ hnlq, splitOnChar_append '\n' n _ hnln,
      splitOnChar_append '\n' m _ hnlm, splitOnChar_no_sep '\n' q hnlq]
  have hd1 : pyReplace (q ++ '\n' :: (n ++ '\n' :: (m ++ '\n' :: q))) q nl =
      nl ++ '\n' :: (n ++ '\n' :: (pyReplace m q nl ++ '\n' :: nl)) := by
    rw [pyReplace_append_nl q nl hqnil hnlq, pyReplace_append_nl q nl hqnil hnlq,
      pyReplace_append_nl q nl hqnil hnlq, pyReplace_self q nl hqnil,
      pyReplace_no_occ2 q nl hqnil n hnocc_n]
  have hd2 : pyReplace (nl ++ '\n' :: (n ++ '\n' :: (pyReplace m q nl ++ '\n' :: nl)))
      q nl = nl ++ '\n' :: (n ++ '\n' :: (pyReplace m q nl ++ '\n' :: nl)) := by
    rw [pyReplace_append_nl q nl hqnil hnlq, pyReplace_append_nl q nl hqnil hnlq,
      pyReplace_append_nl q nl hqnil hnlq,
      pyReplace_no_occ2 q nl hqnil nl hnocc_nl,
      pyReplace_no_occ2 q nl hqnil n hnocc_n,
      pyReplace_no_occ2 q nl hqnil (pyReplace m q nl) hnocc_m]
  unfold change_argument_order
  rw [hsplit]
  simp only [List.foldl_cons, List.foldl_nil]
  rw [caoStep_qualify _ 0 q nl hq hproc, if_pos hne, hd1,
    caoStep_skip _ 1 n hn, caoStep_skip _ 1 m hm,
    caoStep_qualify _ 1 q nl hq hproc, if_pos hne, hd2]

section ScannerOpaque

attribute [local irreducible] get_test_record pyReplace collapseQuoted collapseBacktickTick
  hereRegexSearch
  stripEscapedChars stripComment fixSemiSemi containsSub killEndQuote dropThroughFirstQuote
  extractHereString quoteAfterWsOrStart lastQuoteCharSub beforeLastSub afterLastSub
  fmtMarker countKwAll countKwScan countChar searchWord closeParenFirst elseElifCase
  detect_function_style change_function_style endsWithBackslash continuedIfSearch
  pystrip rstrip lstrip lit splitOnChar joinNl

/-- Helper: a nonblank record enters the main body. -/
theorem bsStep_nonblank (cfg : BSConfig) (st : BSState) (record0 : Line)
    (hnb : (pystrip (rstrip record0)).isEmpty = false) :
    bsStep cfg st record0 =
      bsMain cfg st (rstrip record0) (continuedIfSearch (rstrip record0))
        (pystrip (rstrip record0)) := by
  simp only [bsStep, hnb, Bool.false_eq_true, if_false]

/-- Helper: a blank record is emitted stripped, with no state change. -/
theorem bsStep_blank (cfg : BSConfig) (st : BSState) (record0 : Line)
    (hb : (pystrip (rstrip record0)).isEmpty = true) :
    bsStep cfg st record0 = (pystrip (rstrip record0), st) := by
  simp only [bsStep, hb, if_true, reduceIte]

/-- Helper: with no pending continuation, multiline string or
here-document, the main body reduces to the normal branch. -/
theorem bsMain_noMqs (cfg : BSConfig) (st : BSState) (record : Line)
    (cif : Bool) (s0 : Line)
    (hcl : st.continue_line = false) (hsm : st.started_mqs = false)
    (hhd : st.in_here_doc = false) :
    bsMain cfg st record cif s0 =
      bsNormal cfg st record cif
        (if st.case_level ≠ 0 then fixSemiSemi s0 else s0)
        (get_test_record (if st.case_level ≠ 0 then fixSemiSemi s0 else s0))
        false
        (endsWithBackslash (if st.case_level ≠ 0 then fixSemiSemi s0 else s0))
        false := by
  simp only [bsMain, bsTest1, bsEnded, hcl, hsm, hhd, Bool.false_and, Bool.and_false,
    Bool.false_or, Bool.or_false, Bool.false_eq_true, if_false]

/-- Helper: on the normal structural path (no external quote, formatter
on, no formatter-off marker, no quote opened by the line, no
continuation) the branch on `open_brackets`/`continued_if` decides
between verbatim pass-through and the counting block. -/
theorem bsNormal_branch (cfg : BSConfig) (st : BSState) (record : Line)
    (cif : Bool) (s1 t1 : Line)
    (heq : st.in_ext_quote = false) (hfm : st.formatter = true)
    (hoff : fmtMarker (lit "@formatter:off") s1 = false)
    (hq : quoteAfterWsOrStart t1 = false) :
    bsNormal cfg st record cif s1 t1 false false false =
      (if st.open_brackets ≠ 0 || cif then
        (record, bsTailState st false false (bsHereDetect st s1 t1).2
           (bsHereDetect st s1 t1).1 false st.defer_ext_quote st.ext_quote_string t1)
      else
        ((bsFormat cfg st.tab st.case_level st.esac_errors st.open_brackets s1 t1
            false false).1,
         { bsTailState st false false (bsHereDetect st s1 t1).2
             (bsHereDetect st s1 t1).1 false st.defer_ext_quote st.ext_quote_string t1 with
             tab := (bsFormat cfg st.tab st.case_level st.esac_errors st.open_brackets
               s1 t1 false false).2.1,
             case_level := (bsFormat cfg st.tab st.case_level st.esac_errors
               st.open_brackets s1 t1 false false).2.2.1,
             esac_errors := (bsFormat cfg st.tab st.case_level st.esac_errors
               st.open_brackets s1 t1 false false).2.2.2 })) := by
  simp only [bsNormal, bsTest2, bsStarted1, bsExtQuote, heq, hfm, hq, hoff,
    Bool.false_and, Bool.and_false, Bool.false_or, Bool.or_false, Bool.not_true,
    Bool.false_eq_true, if_false]

/-- Helper: the counting block always emits computed indentation followed
by the (possibly style-rewritten) stripped line. -/
theorem bsFormat_out_shape (cfg : BSConfig) (tab : Int) (cl ee : Nat) (ob : Int)
    (s1 t3 : Line) (prev ended : Bool) :
    ∃ k, (bsFormat cfg tab cl ee ob s1 t3 prev ended).1 =
      List.replicate k cfg.tab_str ++
        change_function_style cfg.apply_function_style s1 (detect_function_style t3) := by
  simp only [bsFormat]
  cases hf : detect_function_style t3 with
  | none =>
    simp only [Option.isSome_none, Bool.false_eq_true, if_false, change_function_style]
    exact ⟨_, rfl⟩
  | some v =>
    simp only [Option.isSome_some, if_true, reduceIte]
    exact ⟨_, rfl⟩

/-- C4 (amended): on the normal structural path a line is passed through
to the output verbatim **iff** the running open-bracket count is nonzero
or the line contains `&` anywhere or ends in `|` (the condition computed
by `continuedIfSearch`, which is what the regex of line 128 really
matches — not only lines *ending* in a connector); all other such lines
are re-emitted as computed indentation plus the (possibly
style-rewritten) stripped line. -/
theorem claim_C4_amended (cfg : BSConfig) (st : BSState) (record0 : Line) (s1 : Line)
    (hs1 : s1 = (if st.case_level ≠ 0 then fixSemiSemi (pystrip (rstrip record0))
                 else pystrip (rstrip record0)))
    (hcl : st.continue_line = false) (hsm : st.started_mqs = false)
    (hhd : st.in_here_doc = false) (heq : st.in_ext_quote = false)
    (hfm : st.formatter = true)
    (hnb : (pystrip (rstrip record0)).isEmpty = false)
    (hbs : endsWithBackslash s1 = false)
    (hoff : fmtMarker (lit "@formatter:off") s1 = false)
    (hq : quoteAfterWsOrStart (get_test_record s1) = false) :
    ((st.open_brackets ≠ 0 ∨ continuedIfSearch (rstrip record0) = true) →
        (bsStep cfg st record0).1 = rstrip record0) ∧
    (st.open_brackets = 0 → continuedIfSearch (rstrip record0) = false →
        ∃ k, (bsStep cfg st record0).1 =
          List.replicate k cfg.tab_str ++
            change_function_style cfg.apply_function_style s1
              (detect_function_style (get_test_record s1))) := by
  rw [bsStep_nonblank cfg st record0 hnb, bsMain_noMqs cfg st _ _ _ hcl hsm hhd, ← hs1,
    hbs, bsNormal_branch cfg st _ _ _ _ heq hfm hoff hq]
  constructor
  · intro hpass
    have hcond : (st.open_brackets ≠ 0 || continuedIfSearch (rstrip record0)) = true := by
      rcases hpass with h | h
      · simp [h]
      · simp [h]
    rw [hcond]
    simp
  · intro hob hcif
    have hcond : (st.open_brackets ≠ 0 || continuedIfSearch (rstrip record0)) = false := by
      simp [hob, hcif]
    rw [hcond]
    simp only [Bool.false_eq_true, if_false]
    exact bsFormat_out_shape cfg st.tab st.case_level st.esac_errors st.open_brackets
      s1 (get_test_record s1) false false



theorem bsStep_heredoc (cfg : BSConfig) (st : BSState) (l : Line)
    (hhd : st.in_here_doc = true) (hsm : st.started_mqs = false)
    (hnb : (pystrip (rstrip l)).isEmpty = false)
    (hkeep : hereKeepsOpen st.here_string st.case_level l = true) :
    bsStep cfg st l = (rstrip l,
      { st with
        continue_line := endsWithBackslash
          (if st.case_level ≠ 0 then fixSemiSemi (pystrip (rstrip l))
           else pystrip (rstrip l)),
        in_here_doc := true }) := by
  rw [bsStep_nonblank cfg st l hnb]
  unfold hereKeepsOpen at hkeep
  rw [Bool.not_eq_true'] at hkeep
  simp only [bsMain, bsTest1, bsEnded, hsm, hhd, Bool.and_false, Bool.false_and,
    Bool.or_false, Bool.false_or, Bool.true_or, Bool.or_true, Bool.false_eq_true,
    if_false, if_true, reduceIte]
  simp only [bsHeredocEmit, hkeep, Bool.false_eq_true, if_false, hhd]
  rw [hsm]

theorem bsRun_heredoc (cfg : BSConfig) (body : List Line) : ∀ (st : BSState),
    st.in_here_doc = true → st.started_mqs = false →
    (∀ l ∈ body, hereKeepsOpen st.here_string st.case_level l = true) →
    (bsRun cfg body st).1 = body.map rstrip ∧
    (bsRun cfg body st).2.in_here_doc = true ∧
    (bsRun cfg body st).2.started_mqs = false ∧
    (bsRun cfg body st).2.here_string = st.here_string ∧
    (bsRun cfg body st).2.case_level = st.case_level := by
  induction body with
  | nil => intro st h1 h2 _; exact ⟨rfl, h1, h2, rfl, rfl⟩
  | cons l rest ih =>
    intro st h1 h2 hk
    cases hb : (pystrip (rstrip l)).isEmpty
    · have hstep := bsStep_heredoc cfg st l h1 h2 hb (hk l (by simp))
      have ihres := ih { st with
          continue_line := endsWithBackslash
            (if st.case_level ≠ 0 then fixSemiSemi (pystrip (rstrip l))
             else pystrip (rstrip l)),
          in_here_doc := true } rfl h2 (fun x hx => hk x (by simp [hx]))
      simp only [bsRun, hstep]
      exact ⟨by rw [List.map_cons]; exact congrArg _ ihres.1,
        ihres.2.1, ihres.2.2.1, ihres.2.2.2.1, ihres.2.2.2.2⟩
    · have hstep := bsStep_blank cfg st l hb
      have hnil := blank_rstrip_nil l hb
      have ihres := ih st h1 h2 (fun x hx => hk x (by simp [hx]))
      simp only [bsRun, hstep]
      refine ⟨?_, ihres.2.1, ihres.2.2.1, ihres.2.2.2.1, ihres.2.2.2.2⟩
      have hps : pystrip (rstrip l) = [] := List.isEmpty_iff.mp hb
      rw [List.map_cons, hps, hnil]
      exact congrArg _ ihres.1

/-- C3 (corrected): while a here-document is open (and no multiline quoted
string is pending), every body line on which the terminator regex search
fails — the terminator is a dynamic `re.search` pattern, so for a token
of the extraction class `[_|\w]+` it is split at `|` and the document
closes as soon as ANY piece occurs as a substring of the simplified line
(unless a new `<<` appears); the hypothesis restricts to that class —
is emitted as the line with trailing whitespace removed
(`record.rstrip()`, line 124), embedded and leading indentation
preserved, and the here-document remains open afterwards; body lines are
therefore not passed through byte-for-byte as the original claim stated,
but only up to trailing-whitespace removal. -/
theorem claim_C3_amended (cfg : BSConfig) (st : BSState) (body : List Line)
    (hhd : st.in_here_doc = true) (hsm : st.started_mqs = false)
    (hts : ∀ c ∈ st.here_string, hereTokenChar c = true)
    (hk : ∀ l ∈ body, hereKeepsOpen st.here_string st.case_level l = true) :
    (bsRun cfg body st).1 = body.map rstrip ∧
    (bsRun cfg body st).2.in_here_doc = true := by
  have r := bsRun_heredoc cfg body st hhd hsm hk
  exact ⟨r.1, r.2.1⟩

/-- `min`/`max` with zero recompose to the plain sum. -/
theorem int_min_max_add (a b : Int) : a + min b 0 + max b 0 = a + b := by omega

/-- On a simple structural line (simplified record = stripped record,
previous-continuation and multiline-string flags off, zero running
bracket count) the counting block computes exactly the plain shadow
step. -/
theorem bsFormat_eq_plain (cfg : BSConfig) (tab : Int) (cl ee : Nat) (t : Line) :
    bsFormat cfg tab cl ee 0 t t false false =
      (List.replicate (cfg.tab_size *
          (max 0 (tab + min (plainStepOf cl t).net 0 + (plainStepOf cl t).elsec +
            (plainStepOf cl t).choice)).toNat) cfg.tab_str ++
        change_function_style cfg.apply_function_style t (detect_function_style t),
       tab + (plainStepOf cl t).net,
       (plainStepOf cl t).cl2,
       ee + (if (plainStepOf cl t).esacUnder then 1 else 0)) := by
  simp only [bsFormat, plainStepOf, Bool.false_and, Bool.and_false,
    Bool.false_eq_true, if_false, add_zero]
  simp only [Prod.mk.injEq]
  refine ⟨?_, ?_, trivial, ?_⟩
  · by_cases hf : (detect_function_style t).isSome = true
    · simp only [hf, if_true, reduceIte]
    · have hn : detect_function_style t = none := by
        cases hd : detect_function_style t
        · rfl
        · rw [hd] at hf; exact absurd rfl hf
      rw [hn]
      simp only [Bool.false_eq_true, if_false, Option.isSome_none]
      rw [show change_function_style cfg.apply_function_style t none = t from by
        simp only [change_function_style]]
  · exact int_min_max_add tab _
  · by_cases h1 : searchWord (lit "esac") t = true <;> by_cases h2 : cl = 0 <;>
      simp [h1, h2]

/-- On a simple structural line, in a normal state, one loop iteration
emits the plain shadow output line and performs the plain shadow state
update. -/
theorem bsStep_plain (cfg : BSConfig) (st : BSState) (l : Line)
    (hn : normalState st) (hp : plainLine l = true) :
    bsStep cfg st l = (plainOutLine cfg st.tab st.case_level l, plainNextState st l) := by
  obtain ⟨hc, hsm, hob, hhd, hdq, hiq, hfmt⟩ := hn
  have hp' := hp
  simp only [plainLine, Bool.and_eq_true] at hp'
  obtain ⟨⟨⟨⟨⟨hA, hB⟩, hC⟩, hD⟩, hE⟩, hF⟩ := hp'
  rw [Bool.not_eq_true'] at hA
  rw [Bool.not_eq_true'] at hC
  have hE' : fixSemiSemi (pystrip l) = pystrip l := of_decide_eq_true hE
  have hF' : countChar '[' (pystrip l) = countChar ']' (pystrip l) := of_decide_eq_true hF
  have hsp : ∀ c ∈ pystrip l, specialChar c = false := by
    intro c hcm
    have hx := List.all_eq_true.mp hB c hcm
    rwa [Bool.not_eq_true'] at hx
  have hbs : '\\' ∉ pystrip l := fun hm => by have hx := hsp _ hm; revert hx; decide
  have hlt2 : '<' ∉ pystrip l := fun hm => by have hx := hsp _ hm; revert hx; decide
  have hhash : '#' ∉ pystrip l := fun hm => by have hx := hsp _ hm; revert hx; decide
  have hqq : ∀ c ∈ pystrip l, (c = '\x27' || c = '\x22') = false := by
    intro c hm
    have hx := hsp _ hm
    simp only [specialChar, Bool.or_eq_false_iff] at hx
    simp only [Bool.or_eq_false_iff]
    exact ⟨hx.1.1.1.1.1, hx.1.1.1.1.2⟩
  have hnb : (pystrip (rstrip l)).isEmpty = false := by rw [pystrip_rstrip]; exact hA
  have hcif : continuedIfSearch (rstrip l) = false := by
    simp only [continuedIfSearch, hC, Bool.false_or]
    cases hL : (rstrip l).getLast? with
    | none => rfl
    | some c =>
      rw [hL] at hD
      have hD' : (!(decide (c = '|'))) = true := hD
      rw [Bool.not_eq_true'] at hD'
      exact hD'
  have hs1 : (if st.case_level ≠ 0 then fixSemiSemi (pystrip (rstrip l))
      else pystrip (rstrip l)) = pystrip l := by
    rw [pystrip_rstrip]
    split
    · exact hE'
    · rfl
  have hhdet : bsHereDetect st (pystrip l) (pystrip l) = (st.here_string, st.in_here_doc) := by
    simp only [bsHereDetect]
    rw [lit_angle2, containsSub_head_not_mem '<' ['<'] _ hlt2]
    simp only [Bool.false_and, Bool.false_eq_true, if_false]
  rw [bsStep_nonblank cfg st l hnb, bsMain_noMqs cfg st _ _ _ hc hsm hhd, hs1,
    get_test_record_plain (pystrip l) hsp, endsWithBackslash_no_bs (pystrip l) hbs,
    bsNormal_branch cfg st _ _ _ _ hiq hfmt (fmtMarker_no_hash _ _ hhash)
      (quoteAfterWsOrStart_no_quotes _ hqq),
    hcif, hob, hhdet]
  rw [if_neg (by decide)]
  rw [bsFormat_eq_plain cfg st.tab st.case_level st.esac_errors (pystrip l)]
  simp only [plainOutLine, plainNextState, bsTailState, bsTail, hdq,
    Bool.false_eq_true, if_false]
  simp only [Prod.mk.injEq, BSState.mk.injEq, and_true, true_and]
  rw [hF']
  refine ⟨hc.symm, hsm.symm, ?_, hiq.symm⟩
  omega

/-- The plain shadow state update preserves normality. -/
theorem normalState_next (st : BSState) (l : Line) (hn : normalState st) :
    normalState (plainNextState st l) := by
  obtain ⟨h1, h2, h3, h4, h5, h6, h7⟩ := hn
  exact ⟨h1, h2, h3, h4, h5, h6, h7⟩

/-- Over a list of blank or simple structural lines, starting from a
normal state, the scan loop emits exactly the plain shadow outputs and
ends in the plain shadow state. -/
theorem bsRun_plain (cfg : BSConfig) : ∀ (lines : List Line) (st : BSState),
    normalState st →
    (∀ l ∈ lines, (pystrip l).isEmpty = true ∨ plainLine l = true) →
    bsRun cfg lines st = (plainOuts cfg st lines, plainRunState st lines)
  | [], _, _, _ => rfl
  | l :: ls, st, hn, hp => by
    have hrest : ∀ x ∈ ls, (pystrip x).isEmpty = true ∨ plainLine x = true :=
      fun x hx => hp x (List.mem_cons_of_mem l hx)
    rcases hp l (List.mem_cons_self l ls) with hb | hpl
    · have hb' : (pystrip (rstrip l)).isEmpty = true := by rw [pystrip_rstrip]; exact hb
      have hrec := bsRun_plain cfg ls st hn hrest
      simp only [bsRun, bsStep_blank cfg st l hb', hrec, plainOuts, plainRunState, hb,
        if_true, reduceIte]
      rw [pystrip_rstrip, List.isEmpty_iff.mp hb]
    · have hnb := plainLine_nonblank l hpl
      have hrec := bsRun_plain cfg ls (plainNextState st l)
        (normalState_next st l hn) hrest
      simp only [bsRun, bsStep_plain cfg st l hn hpl, hrec, plainOuts, plainRunState,
        hnb, Bool.false_eq_true, if_false]

/-- C1 (corrected): for a script of blank or simple structural lines
whose accumulated keyword/bracket count (with `esac` closing an open
`case`) sums to zero, the end-of-file running depth is zero and
`beautify_string` reports no error.  (Scripts with `&` on a structural
line escape the count — see the counterexample — so plainness is part of
the hypothesis.) -/
theorem claim_C1_amended (cfg : BSConfig) (data : Line)
    (hplain : ∀ l ∈ splitOnChar '\n' data,
      (pystrip l).isEmpty = true ∨ plainLine l = true)
    (hbal : (plainRunState bsInit (splitOnChar '\n' data)).tab = 0) :
    (beautify_string cfg data).error = false ∧
    (bsRun cfg (splitOnChar '\n' data) bsInit).2.tab = 0 := by
  have hr := bsRun_plain cfg (splitOnChar '\n' data) bsInit
    ⟨rfl, rfl, rfl, rfl, rfl, rfl, rfl⟩ hplain
  constructor
  · simp only [beautify_string, hr]
    rw [hbal]
    rfl
  · rw [hr]
    exact hbal

/-- The shadow output line with no forced function style is indentation
plus the stripped line. -/
theorem plainOutLine_shape (cfg : BSConfig) (hstyle : cfg.apply_function_style = none)
    (tab : Int) (cl : Nat) (l : Line) :
    plainOutLine cfg tab cl l =
      List.replicate (cfg.tab_size * (max 0 (tab + min (plainStepOf cl (pystrip l)).net 0 +
        (plainStepOf cl (pystrip l)).elsec + (plainStepOf cl (pystrip l)).choice)).toNat)
        cfg.tab_str ++ pystrip l := by
  simp only [plainOutLine, hstyle, change_function_style_none]

/-- The shadow state update only depends on the stripped line. -/
theorem plainNextState_congr (st : BSState) (a b : Line) (h : pystrip a = pystrip b) :
    plainNextState st a = plainNextState st b := by
  simp only [plainNextState, h]

/-- Re-running the plain shadow on its own output changes nothing: the
outputs, the final state, and plainness itself are all preserved. -/
theorem plainOuts_idem (cfg : BSConfig) (hstyle : cfg.apply_function_style = none)
    (hw : isSpaceChar cfg.tab_str = true) (hwa : ¬(cfg.tab_str = '&')) :
    ∀ (lines : List Line) (st : BSState),
    (∀ l ∈ lines, (pystrip l).isEmpty = true ∨ plainLine l = true) →
    plainOuts cfg st (plainOuts cfg st lines) = plainOuts cfg st lines ∧
    plainRunState st (plainOuts cfg st lines) = plainRunState st lines ∧
    (∀ o ∈ plainOuts cfg st lines, (pystrip o).isEmpty = true ∨ plainLine o = true)
  | [], st, _ => ⟨rfl, rfl, fun o ho => absurd ho (List.not_mem_nil o)⟩
  | l :: ls, st, hp => by
    have hrest : ∀ x ∈ ls, (pystrip x).isEmpty = true ∨ plainLine x = true :=
      fun x hx => hp x (List.mem_cons_of_mem l hx)
    rcases hp l (List.mem_cons_self l ls) with hb | hpl
    · obtain ⟨ih1, ih2, ih3⟩ := plainOuts_idem cfg hstyle hw hwa ls st hrest
      simp only [plainOuts, plainRunState, hb, if_true, reduceIte]
      refine ⟨?_, ?_, ?_⟩
      · simp only [plainOuts, pystrip_nil_empty, if_true, reduceIte, ih1]
      · simp only [plainRunState, pystrip_nil_empty, if_true, reduceIte, ih2]
      · intro o ho
        rcases List.mem_cons.mp ho with he | hm
        · left; rw [he]; exact pystrip_nil_empty
        · exact ih3 o hm
    · have hnb := plainLine_nonblank l hpl
      obtain ⟨ih1, ih2, ih3⟩ :=
        plainOuts_idem cfg hstyle hw hwa ls (plainNextState st l) hrest
      have hshape := plainOutLine_shape cfg hstyle st.tab st.case_level l
      have hout_ps : pystrip (plainOutLine cfg st.tab st.case_level l) = pystrip l := by
        rw [hshape]; exact pystrip_out _ _ _ hw hnb
      have hout_plain : plainLine (plainOutLine cfg st.tab st.case_level l) = true := by
        rw [hshape]; exact plainLine_out _ _ _ hw hwa hpl
      have hout_nb : (pystrip (plainOutLine cfg st.tab st.case_level l)).isEmpty = false := by
        rw [hout_ps]; exact hnb
      have hnext : plainNextState st (plainOutLine cfg st.tab st.case_level l) =
          plainNextState st l := plainNextState_congr st _ _ hout_ps
      simp only [plainOuts, plainRunState, hnb, Bool.false_eq_true, if_false]
      refine ⟨?_, ?_, ?_⟩
      · simp only [plainOuts, hout_nb, Bool.false_eq_true, if_false, hnext, ih1]
        rw [show plainOutLine cfg st.tab st.case_level
            (plainOutLine cfg st.tab st.case_level l) =
            plainOutLine cfg st.tab st.case_level l from by
          rw [plainOutLine_shape cfg hstyle st.tab st.case_level
            (plainOutLine cfg st.tab st.case_level l), hout_ps, ← hshape]]
      · simp only [plainRunState, hout_nb, Bool.false_eq_true, if_false, hnext, ih2]
      · intro o ho
        rcases List.mem_cons.mp ho with he | hm
        · right; rw [he]; exact hout_plain
        · exact ih3 o hm

/-- Shadow outputs contain no newline when the inputs do not. -/
theorem plainOuts_no_nl (cfg : BSConfig) (hstyle : cfg.apply_function_style = none)
    (hnl : ¬(cfg.tab_str = '\n')) :
    ∀ (lines : List Line) (st : BSState),
    (∀ l ∈ lines, '\n' ∉ l) →
    ∀ o ∈ plainOuts cfg st lines, '\n' ∉ o
  | [], _, _, o, ho => absurd ho (List.not_mem_nil o)
  | l :: ls, st, hp, o, ho => by
    by_cases hb : (pystrip l).isEmpty = true
    · simp only [plainOuts, hb, if_true, reduceIte] at ho
      rcases List.mem_cons.mp ho with he | hm
      · rw [he]; exact List.not_mem_nil _
      · exact plainOuts_no_nl cfg hstyle hnl ls st
          (fun x hx => hp x (List.mem_cons_of_mem l hx)) o hm
    · have hb' : (pystrip l).isEmpty = false := by
        cases hx : (pystrip l).isEmpty
        · rfl
        · exact absurd hx hb
      simp only [plainOuts, hb', Bool.false_eq_true, if_false] at ho
      rcases List.mem_cons.mp ho with he | hm
      · rw [he, plainOutLine_shape cfg hstyle]
        intro hmem
        rcases List.mem_append.mp hmem with hr | hs
        · exact hnl (List.eq_of_mem_replicate hr).symm
        · exact hp l (List.mem_cons_self l ls) (mem_of_pystrip_mem l _ hs)
      · exact plainOuts_no_nl cfg hstyle hnl ls (plainNextState st l)
          (fun x hx => hp x (List.mem_cons_of_mem l hx)) o hm

/-- The shadow never produces an empty output list from a nonempty input. -/
theorem plainOuts_ne_nil (cfg : BSConfig) (l : Line) (ls : List Line) (st : BSState) :
    plainOuts cfg st (l :: ls) ≠ [] := by
  simp only [plainOuts]
  split <;> simp

/-- C2 (corrected): with no forced function style, a space or tab indent
character, and an input of blank or simple structural lines, a second
run of `beautify_string` on its own output returns the identical result
(same text, error flag and esac-report count). -/
theorem claim_C2_amended (cfg : BSConfig) (data : Line)
    (hstyle : cfg.apply_function_style = none)
    (htab : cfg.tab_str = ' ' ∨ cfg.tab_str = '\t')
    (hplain : ∀ l ∈ splitOnChar '\n' data,
      (pystrip l).isEmpty = true ∨ plainLine l = true) :
    beautify_string cfg (beautify_string cfg data).text = beautify_string cfg data := by
  have hw : isSpaceChar cfg.tab_str = true := by
    rcases htab with h | h <;> rw [h] <;> decide
  have hwa : ¬(cfg.tab_str = '&') := by
    rcases htab with h | h <;> rw [h] <;> decide
  have hnl : ¬(cfg.tab_str = '\n') := by
    rcases htab with h | h <;> rw [h] <;> decide
  have hno_nl_in : ∀ l ∈ splitOnChar '\n' data, '\n' ∉ l :=
    fun l hl => splitOnChar_pieces_no_sep '\n' data l hl
  have hinit : normalState bsInit := ⟨rfl, rfl, rfl, rfl, rfl, rfl, rfl⟩
  have hr1 := bsRun_plain cfg (splitOnChar '\n' data) bsInit hinit hplain
  obtain ⟨idem1, idem2, idem3⟩ :=
    plainOuts_idem cfg hstyle hw hwa (splitOnChar '\n' data) bsInit hplain
  have houts_nl : ∀ o ∈ plainOuts cfg bsInit (splitOnChar '\n' data), '\n' ∉ o :=
    plainOuts_no_nl cfg hstyle hnl (splitOnChar '\n' data) bsInit hno_nl_in
  have houts_ne : plainOuts cfg bsInit (splitOnChar '\n' data) ≠ [] := by
    obtain ⟨h0, t0, hsplit⟩ := splitOnChar_cons_shape '\n' data
    rw [hsplit]
    exact plainOuts_ne_nil cfg h0 t0 bsInit
  have hr2 := bsRun_plain cfg (plainOuts cfg bsInit (splitOnChar '\n' data)) bsInit
    hinit idem3
  simp only [beautify_string, hr1]
  rw [splitOnChar_joinNl _ houts_ne houts_nl, hr2, idem1, idem2]

end ScannerOpaque

/-- C4 witness: the amended branch characterisation applied to the
initial state and the concrete line `echo`. -/
theorem claim_C4_amended_witness :
    ((bsInit.open_brackets ≠ 0 ∨ continuedIfSearch (rstrip (lit "echo")) = true) →
        (bsStep defaultCfg bsInit (lit "echo")).1 = rstrip (lit "echo")) ∧
    (bsInit.open_brackets = 0 → continuedIfSearch (rstrip (lit "echo")) = false →
        ∃ k, (bsStep defaultCfg bsInit (lit "echo")).1 =
          List.replicate k defaultCfg.tab_str ++
            change_function_style defaultCfg.apply_function_style
              (pystrip (rstrip (lit "echo")))
              (detect_function_style (get_test_record (pystrip (rstrip (lit "echo")))))) :=
  claim_C4_amended defaultCfg bsInit (lit "echo") (pystrip (rstrip (lit "echo")))
    (by decide) rfl rfl rfl rfl rfl (by decide) (by decide) (by decide) (by decide)

theorem claim_C3_amended_witness :
    (∀ c ∈ lit "EOF", hereTokenChar c = true) ∧
    (bsRun defaultCfg [lit "  hello   ", lit "\tworld"]
        { bsInit with in_here_doc := true, here_string := lit "EOF" }).1 =
      [lit "  hello", lit "\tworld"] ∧
    (bsRun defaultCfg [lit "  hello   ", lit "\tworld"]
        { bsInit with in_here_doc := true, here_string := lit "EOF" }).2.in_here_doc
      = true := by
  have h := claim_C3_amended defaultCfg
    { bsInit with in_here_doc := true, here_string := lit "EOF" }
    [lit "  hello   ", lit "\tworld"] rfl rfl (by decide) (by decide)
  refine ⟨by decide, ?_, h.2⟩
  rw [h.1]
  decide

theorem claim_C1_amended_witness :
    (∀ l ∈ splitOnChar '\n' (lit "then\nfi"),
        (pystrip l).isEmpty = true ∨ plainLine l = true) ∧
    (plainRunState bsInit (splitOnChar '\n' (lit "then\nfi"))).tab = 0 ∧
    ((beautify_string defaultCfg (lit "then\nfi")).error = false ∧
     (bsRun defaultCfg (splitOnChar '\n' (lit "then\nfi")) bsInit).2.tab = 0) :=
  ⟨by decide, by decide,
    claim_C1_amended defaultCfg (lit "then\nfi") (by decide) (by decide)⟩

theorem claim_C2_amended_witness :
    (defaultCfg.apply_function_style = none ∧
     (defaultCfg.tab_str = ' ' ∨ defaultCfg.tab_str = '\t') ∧
     (∀ l ∈ splitOnChar '\n' (lit "then\nfoo\nfi"),
        (pystrip l).isEmpty = true ∨ plainLine l = true)) ∧
    beautify_string defaultCfg
        (beautify_string defaultCfg (lit "then\nfoo\nfi")).text =
      beautify_string defaultCfg (lit "then\nfoo\nfi") :=
  ⟨⟨rfl, Or.inl rfl, by decide⟩,
    claim_C2_amended defaultCfg (lit "then\nfoo\nfi") rfl (Or.inl rfl) (by decide)⟩

theorem claim_C10_amended_witness :
    (caoQualifies (lit "cmd -b -a") = true ∧
     caoQualifies (lit "echo hi") = false ∧
     caoQualifies (lit "[ x cmd -b -a") = false ∧
     processArgLine (lit "cmd -b -a") = some (lit "cmd -a -b")) ∧
    change_argument_order (lit "cmd -b -a" ++ '\n' :: (lit "echo hi" ++ '\n' ::
        (lit "[ x cmd -b -a" ++ '\n' :: lit "cmd -b -a"))) =
      some (lit "cmd -a -b" ++ '\n' :: (lit "echo hi" ++ '\n' ::
        (pyReplace (lit "[ x cmd -b -a") (lit "cmd -b -a") (lit "cmd -a -b") ++
          '\n' :: lit "cmd -a -b")), 2) :=
  ⟨⟨by decide, by decide, by decide, by decide⟩,
    claim_C10_amended (lit "cmd -b -a") (lit "cmd -a -b") (lit "echo hi")
      (lit "[ x cmd -b -a") (by decide) (by decide) (by decide) (by decide)
      (by decide) (by decide) (by decide) (by decide) (by decide)
      (by decide) (by decide) (by decide)⟩

end Beautysh
